import Mathlib

/-
Verification development for the GuardianJS client fingerprinting core.

The development shallowly embeds the deterministic core of the repository:

* `src/hash.ts` — `canonicalize` (JSON.stringify with a key-sorting replacer),
  `normalizeString`, and `stableHash` (two-lane 32-bit multiplicative mix);
* `src/anchor.ts` — `computeAnchor` and `computeVisitorId`;
* `src/sources/audio.ts` — the audio acquisition protocol: browser
  classification short-circuits, the retry/timeout state machine inside
  `startRenderingAudio`, the render-promise handlers, and `getHash`.

Modelling conventions:

* JavaScript strings are modelled as Lean `String`; where JS semantics are
  per UTF-16 code unit (default `Array.prototype.sort`, `charCodeAt`,
  `.length` in `stableHash`), the embedding works on the explicit list of
  UTF-16 code units of the string (`strUnits`).
* JS numbers that flow into JSON are embedded by their JSON serialization
  text (`Json.num lit`); `JSON.stringify` of a finite number emits exactly
  that text, and `JSON.parse` round-trips it, so all string-level claims are
  unaffected by this encoding.
* 32-bit integer arithmetic (`Math.imul`, `^`, `>>>`) is modelled on the
  unsigned 32-bit view as natural numbers with explicit reduction mod 2^32;
  the bit patterns agree with JS's signed view, and `>>> 0` is the identity
  on the unsigned view.
* Stateful, timer-driven code (the audio render loop) is modelled as a step
  function on an explicit job state, driven by an event trace; promise
  settlement is single-shot (`settle` keeps the first outcome).
-/

namespace GuardianJS

/-! ### UTF-16 code units and the JS default string order

JavaScript's default `Array.prototype.sort` compares strings by their UTF-16
code units.  Lean `Char`s are Unicode scalar values, so a character encodes
to one code unit (below 0x10000) or a surrogate pair.  -/

/-- UTF-16 code units of a single character (one unit below 0x10000,
otherwise a high/low surrogate pair). -/
def charUnits (c : Char) : List Nat :=
  if c.toNat < 65536 then [c.toNat]
  else [55296 + (c.toNat - 65536) / 1024, 56320 + (c.toNat - 65536) % 1024]

/-- UTF-16 code units of a string, in order. -/
def strUnits (s : String) : List Nat :=
  (s.data.map charUnits).flatten

/-- Strict lexicographic order on code-unit lists: the comparison performed
by JS string `<` and by the default sort comparator. -/
def unitsLt : List Nat → List Nat → Bool
  | [], [] => false
  | [], _ :: _ => true
  | _ :: _, [] => false
  | a :: as, b :: bs => if a < b then true else if b < a then false else unitsLt as bs

/-- JS string strict order (UTF-16 code-unit lexicographic). -/
def jsStrLt (s t : String) : Bool := unitsLt (strUnits s) (strUnits t)

/-- JS string weak order: `s` sorts no later than `t`. -/
def jsStrLe (s t : String) : Bool := !(jsStrLt t s)

theorem unitsLt_asymm : ∀ u v, unitsLt u v = true → unitsLt v u = true → False := by
  intro u
  induction u with
  | nil => intro v h1 h2; cases v <;> simp [unitsLt] at h1 h2
  | cons a as ih =>
    intro v h1 h2
    cases v with
    | nil => simp [unitsLt] at h1
    | cons b bs =>
      simp only [unitsLt] at h1 h2
      by_cases hab : a < b
      · have : ¬ b < a := Nat.lt_asymm hab
        simp [hab, this] at h2
      · by_cases hba : b < a
        · simp [hab, hba] at h1
        · simp [hab, hba] at h1 h2
          exact ih bs h1 h2

theorem unitsLt_trans : ∀ u v w, unitsLt u v = true → unitsLt v w = true → unitsLt u w = true := by
  intro u
  induction u with
  | nil =>
    intro v w h1 h2
    cases v with
    | nil => simp [unitsLt] at h1
    | cons b bs => cases w with
      | nil => simp [unitsLt] at h2
      | cons c cs => simp [unitsLt]
  | cons a as ih =>
    intro v w h1 h2
    cases v with
    | nil => simp [unitsLt] at h1
    | cons b bs =>
      cases w with
      | nil => simp [unitsLt] at h2
      | cons c cs =>
        simp only [unitsLt] at h1 h2 ⊢
        by_cases hab : a < b <;> by_cases hbc : b < c
        · have : a < c := Nat.lt_trans hab hbc
          simp [this]
        · by_cases hcb : c < b
          · simp [hbc, hcb] at h2
          · have hbc' : b = c := Nat.le_antisymm (Nat.le_of_not_lt hcb) (Nat.le_of_not_lt hbc)
            subst hbc'
            simp [hab]
        · by_cases hba : b < a
          · simp [hab, hba] at h1
          · have hab' : a = b := Nat.le_antisymm (Nat.le_of_not_lt hba) (Nat.le_of_not_lt hab)
            subst hab'
            simp [hbc]
        · by_cases hba : b < a
          · simp [hab, hba] at h1
          · have hab' : a = b := Nat.le_antisymm (Nat.le_of_not_lt hba) (Nat.le_of_not_lt hab)
            subst hab'
            by_cases hca : c < a
            · simp [hbc, hca] at h2
            · have hac : a = c := Nat.le_antisymm (Nat.le_of_not_lt hca) (Nat.le_of_not_lt hbc)
              subst hac
              simp only [lt_irrefl, if_false] at h1 h2 ⊢
              exact ih bs cs h1 h2

theorem unitsLt_connex : ∀ u v, unitsLt u v = false → unitsLt v u = false → u = v := by
  intro u
  induction u with
  | nil => intro v h1 _; cases v with
    | nil => rfl
    | cons b bs => simp [unitsLt] at h1
  | cons a as ih =>
    intro v h1 h2
    cases v with
    | nil => simp [unitsLt] at h2
    | cons b bs =>
      simp only [unitsLt] at h1 h2
      by_cases hab : a < b
      · simp [hab] at h1
      · by_cases hba : b < a
        · simp [hba, Nat.lt_asymm hba] at h2
        · have hab' : a = b := Nat.le_antisymm (Nat.le_of_not_lt hba) (Nat.le_of_not_lt hab)
          subst hab'
          simp only [lt_irrefl, if_false] at h1 h2
          rw [ih bs h1 h2]

theorem charUnits_ne_nil (c : Char) : charUnits c ≠ [] := by
  unfold charUnits
  split <;> simp

/-- Unicode scalar-value range facts for a character, in terms of `toNat`. -/
theorem char_valid_nat (c : Char) : c.toNat < 55296 ∨ (57343 < c.toNat ∧ c.toNat < 1114112) :=
  c.valid

theorem charUnits_inj {c d : Char} (h : charUnits c = charUnits d) : c = d := by
  have hc := char_valid_nat c
  have hd := char_valid_nat d
  have toNat_eq : c.toNat = d.toNat := by
    unfold charUnits at h
    by_cases h1 : c.toNat < 65536 <;> by_cases h2 : d.toNat < 65536 <;>
      simp only [h1, h2, if_true, if_false, List.cons.injEq, and_true] at h <;>
      omega
  exact Char.ext (UInt32.toNat.inj toNat_eq)

theorem charListUnits_inj :
    ∀ l1 l2 : List Char, (l1.map charUnits).flatten = (l2.map charUnits).flatten → l1 = l2 := by
  intro l1
  induction l1 with
  | nil =>
    intro l2 h
    cases l2 with
    | nil => rfl
    | cons d t2 =>
      exfalso
      simp only [List.map_nil, List.flatten_nil, List.map_cons, List.flatten_cons] at h
      have := charUnits_ne_nil d
      cases hh : charUnits d with
      | nil => exact this hh
      | cons u us => rw [hh] at h; simp at h
  | cons c t1 ih =>
    intro l2 h
    cases l2 with
    | nil =>
      exfalso
      simp only [List.map_cons, List.flatten_cons, List.map_nil, List.flatten_nil] at h
      have := charUnits_ne_nil c
      cases hh : charUnits c with
      | nil => exact this hh
      | cons u us => rw [hh] at h; simp at h
    | cons d t2 =>
      simp only [List.map_cons, List.flatten_cons] at h
      have hc := char_valid_nat c
      have hd := char_valid_nat d
      -- analyse the head characters
      by_cases h1 : c.toNat < 65536 <;> by_cases h2 : d.toNat < 65536 <;>
        simp only [charUnits, h1, h2, if_true, if_false, List.cons_append,
          List.nil_append, List.cons.injEq] at h
      · obtain ⟨hhead, htail⟩ := h
        have : c = d := Char.ext (UInt32.toNat.inj hhead)
        rw [this, ih t2 htail]
      · exfalso; omega
      · exfalso; omega
      · obtain ⟨hq, hr, htail⟩ := h
        have hlt1 : c.toNat - 65536 < 1048576 := by omega
        have hlt2 : d.toNat - 65536 < 1048576 := by omega
        have hnat : c.toNat = d.toNat := by omega
        have heq : c = d := Char.ext (UInt32.toNat.inj hnat)
        rw [heq, ih t2 htail]

theorem strUnits_inj {s t : String} (h : strUnits s = strUnits t) : s = t :=
  String.ext (charListUnits_inj s.data t.data h)

theorem jsStrLt_asymm {s t : String} (h1 : jsStrLt s t = true) (h2 : jsStrLt t s = true) : False :=
  unitsLt_asymm _ _ h1 h2

theorem jsStrLt_trans {s t u : String} (h1 : jsStrLt s t = true) (h2 : jsStrLt t u = true) :
    jsStrLt s u = true :=
  unitsLt_trans _ _ _ h1 h2

theorem jsStrLt_connex {s t : String} (h1 : jsStrLt s t = false) (h2 : jsStrLt t s = false) :
    s = t :=
  strUnits_inj (unitsLt_connex _ _ h1 h2)

theorem jsStrLe_total (s t : String) : jsStrLe s t = true ∨ jsStrLe t s = true := by
  unfold jsStrLe
  by_cases h : jsStrLt t s = true
  · right
    cases h2 : jsStrLt s t with
    | false => simp
    | true => exact absurd (jsStrLt_asymm h2 h) id
  · left
    simp [Bool.not_eq_true] at h
    simp [h]

theorem jsStrLe_trans {s t u : String} (h1 : jsStrLe s t = true) (h2 : jsStrLe t u = true) :
    jsStrLe s u = true := by
  unfold jsStrLe at h1 h2 ⊢
  simp only [Bool.not_eq_true'] at h1 h2 ⊢
  cases hus : jsStrLt u s with
  | false => rfl
  | true =>
    exfalso
    cases hut : jsStrLt u t with
    | true => exact absurd hut (by simp [h2])
    | false =>
      cases htu : jsStrLt t u with
      | false =>
        have : t = u := jsStrLt_connex htu hut
        subst this
        exact absurd hus (by simp [h1])
      | true =>
        have := jsStrLt_trans htu hus
        exact absurd this (by simp [h1])

theorem jsStrLt_of_le_of_ne {s t : String} (h : jsStrLe s t = true) (hne : s ≠ t) :
    jsStrLt s t = true := by
  unfold jsStrLe at h
  simp only [Bool.not_eq_true'] at h
  cases hst : jsStrLt s t with
  | true => rfl
  | false => exact absurd (jsStrLt_connex hst h) hne

/-! ### Sorting of object keys and JS own-property order

`canonicalize`'s replacer sorts `Object.keys(val)` with the default (UTF-16
lexicographic) comparator and inserts the keys, in that order, into a fresh
object.  Serialization then walks the new object's own properties in the
ordinary JS own-property order (ECMA-262 OrdinaryOwnPropertyKeys): keys that
are array indices (canonical decimal strings below 2^32 - 1) come first in
ascending numeric order, the remaining string keys follow in insertion
order.  JS sorts are stable (ES2019), and object key lists are
duplicate-free, so any stable sorted realisation is the unique one;
`List.insertionSort` is such a realisation. -/

/-- Weak key order on tagged pairs (by UTF-16 order of the key). -/
def keyLeP {β : Type} (a b : String × β) : Prop := jsStrLe a.1 b.1 = true

/-- Strict key order on tagged pairs. -/
def keyLtP {β : Type} (a b : String × β) : Prop := jsStrLt a.1 b.1 = true

instance {β : Type} : DecidableRel (@keyLeP β) := fun a b => by
  unfold keyLeP; infer_instance

/-- Is `s` a canonical array-index string: a canonical decimal numeral whose
value is below 2^32 - 1?  (Canonical decimals of equal length compare
numerically under the lexicographic order, and longer numerals are larger, so
the value bound is expressed on the string itself.) -/
def isArrayIndex (s : String) : Bool :=
  match s.data with
  | [] => false
  | c :: rest =>
    (c :: rest).all Char.isDigit &&
    (if c = '0' then rest.isEmpty else true) &&
    (decide (s.length < 10) || (decide (s.length = 10) && jsStrLt s "4294967295"))

/-- Numeric order on canonical decimal numerals, expressed as shortlex
(shorter numeral first, same-length numerals lexicographically). -/
def shortlexLe (s t : String) : Bool :=
  decide (s.length < t.length) || (decide (s.length = t.length) && jsStrLe s t)

/-- Strict variant of `shortlexLe`. -/
def shortlexLt (s t : String) : Bool :=
  decide (s.length < t.length) || (decide (s.length = t.length) && jsStrLt s t)

/-- Weak numeric-index order on tagged pairs. -/
def idxLeP {β : Type} (a b : String × β) : Prop := shortlexLe a.1 b.1 = true

instance {β : Type} : DecidableRel (@idxLeP β) := fun a b => by
  unfold idxLeP; infer_instance

/-- The JS own-property enumeration order applied to a key-tagged list:
array-index keys first in ascending numeric order, then the remaining keys
in list (insertion) order. -/
def jsOrderPairs {β : Type} (l : List (String × β)) : List (String × β) :=
  List.insertionSort idxLeP (l.filter (fun kv => isArrayIndex kv.1)) ++
    l.filter (fun kv => !isArrayIndex kv.1)

/-- Effect of the replacer plus JS property enumeration on an object's field
list: sort the fields by key, reinsert, and enumerate in own-property
order. -/
def replacerSort {β : Type} (l : List (String × β)) : List (String × β) :=
  jsOrderPairs (List.insertionSort keyLeP l)

/-- Strict emission order of the serialized fields: array-index keys (in
numeric order) strictly precede all other keys (in lexicographic order). -/
def emitLtP {β : Type} (a b : String × β) : Prop :=
  (isArrayIndex a.1 = true ∧ isArrayIndex b.1 = false) ∨
  (isArrayIndex a.1 = true ∧ isArrayIndex b.1 = true ∧ shortlexLt a.1 b.1 = true) ∨
  (isArrayIndex a.1 = false ∧ isArrayIndex b.1 = false ∧ jsStrLt a.1 b.1 = true)

theorem shortlexLe_total (s t : String) : shortlexLe s t = true ∨ shortlexLe t s = true := by
  unfold shortlexLe
  rcases Nat.lt_trichotomy s.length t.length with h | h | h
  · left; simp [h]
  · rcases jsStrLe_total s t with h2 | h2
    · left; simp [h, h2]
    · right; simp [h.symm, h2]
  · right; simp [h]

theorem shortlexLe_trans {s t u : String} (h1 : shortlexLe s t = true)
    (h2 : shortlexLe t u = true) : shortlexLe s u = true := by
  unfold shortlexLe at h1 h2 ⊢
  simp only [Bool.or_eq_true, Bool.and_eq_true, decide_eq_true_eq] at h1 h2 ⊢
  rcases h1 with h1 | ⟨h1e, h1le⟩ <;> rcases h2 with h2 | ⟨h2e, h2le⟩
  · exact Or.inl (Nat.lt_trans h1 h2)
  · exact Or.inl (h2e ▸ h1)
  · exact Or.inl (h1e ▸ h2)
  · exact Or.inr ⟨h1e.trans h2e, jsStrLe_trans h1le h2le⟩

theorem shortlexLt_asymm {s t : String} (h1 : shortlexLt s t = true)
    (h2 : shortlexLt t s = true) : False := by
  unfold shortlexLt at h1 h2
  simp only [Bool.or_eq_true, Bool.and_eq_true, decide_eq_true_eq] at h1 h2
  rcases h1 with h1 | ⟨h1e, h1lt⟩ <;> rcases h2 with h2 | ⟨h2e, h2lt⟩
  · omega
  · omega
  · omega
  · exact jsStrLt_asymm h1lt h2lt

theorem shortlexLt_of_le_of_ne {s t : String} (h : shortlexLe s t = true) (hne : s ≠ t) :
    shortlexLt s t = true := by
  unfold shortlexLe at h
  unfold shortlexLt
  simp only [Bool.or_eq_true, Bool.and_eq_true, decide_eq_true_eq] at h ⊢
  rcases h with h | ⟨he, hle⟩
  · exact Or.inl h
  · exact Or.inr ⟨he, jsStrLt_of_le_of_ne hle hne⟩

theorem emitLtP_asymm {β : Type} {a b : String × β} (h1 : emitLtP a b) (h2 : emitLtP b a) :
    False := by
  unfold emitLtP at h1 h2
  rcases h1 with ⟨x1, y1⟩ | ⟨x1, y1, z1⟩ | ⟨x1, y1, z1⟩ <;>
    rcases h2 with ⟨x2, y2⟩ | ⟨x2, y2, z2⟩ | ⟨x2, y2, z2⟩ <;>
      simp_all
  · exact shortlexLt_asymm z1 z2
  · exact jsStrLt_asymm z1 z2

theorem eq_of_perm_of_pairwise_emitLt {β : Type} {l1 l2 : List (String × β)}
    (p : l1.Perm l2) (s1 : l1.Pairwise emitLtP) (s2 : l2.Pairwise emitLtP) : l1 = l2 :=
  @List.eq_of_perm_of_sorted _ emitLtP ⟨fun _ _ h1 h2 => (emitLtP_asymm h1 h2).elim⟩ _ _ p s1 s2

theorem keyLeP_total {β : Type} (a b : String × β) : keyLeP a b ∨ keyLeP b a :=
  jsStrLe_total a.1 b.1

theorem keyLeP_trans {β : Type} {a b c : String × β} (h1 : keyLeP a b) (h2 : keyLeP b c) :
    keyLeP a c :=
  jsStrLe_trans h1 h2

theorem idxLeP_total {β : Type} (a b : String × β) : idxLeP a b ∨ idxLeP b a :=
  shortlexLe_total a.1 b.1

theorem idxLeP_trans {β : Type} {a b c : String × β} (h1 : idxLeP a b) (h2 : idxLeP b c) :
    idxLeP a c :=
  shortlexLe_trans h1 h2

theorem jsOrderPairs_perm {β : Type} (l : List (String × β)) : (jsOrderPairs l).Perm l := by
  unfold jsOrderPairs
  have h1 := List.perm_insertionSort (@idxLeP β) (l.filter (fun kv => isArrayIndex kv.1))
  exact (h1.append_right _).trans (List.filter_append_perm _ l)

theorem replacerSort_perm {β : Type} (l : List (String × β)) : (replacerSort l).Perm l :=
  (jsOrderPairs_perm _).trans (List.perm_insertionSort _ _)

theorem pairwise_keyNe_of_nodup {β : Type} {l : List (String × β)}
    (h : (l.map Prod.fst).Nodup) : l.Pairwise (fun a b => a.1 ≠ b.1) :=
  List.pairwise_map.mp h

theorem nodup_keys_of_perm {β : Type} {l1 l2 : List (String × β)} (p : l1.Perm l2)
    (h : (l1.map Prod.fst).Nodup) : (l2.map Prod.fst).Nodup :=
  (p.map Prod.fst).nodup h


theorem nodup_keys_of_sublist {β : Type} {l1 l2 : List (String × β)} (p : l1.Sublist l2)
    (h : (l2.map Prod.fst).Nodup) : (l1.map Prod.fst).Nodup :=
  (p.map Prod.fst).nodup h

theorem replacerSort_pairwise {β : Type} {l : List (String × β)}
    (h : (l.map Prod.fst).Nodup) : (replacerSort l).Pairwise emitLtP := by
  unfold replacerSort jsOrderPairs
  have hsorted : (List.insertionSort keyLeP l).Pairwise keyLeP :=
    @List.sorted_insertionSort _ keyLeP _ ⟨keyLeP_total⟩ ⟨fun _ _ _ => keyLeP_trans⟩ l
  have hperm : (List.insertionSort keyLeP l).Perm l := List.perm_insertionSort _ _
  have hnod : ((List.insertionSort keyLeP l).map Prod.fst).Nodup :=
    nodup_keys_of_perm hperm.symm h
  set m := List.insertionSort keyLeP l with hm
  set idxPart := List.insertionSort idxLeP (m.filter (fun kv => isArrayIndex kv.1)) with hidxPart
  set restPart := m.filter (fun kv => !isArrayIndex kv.1) with hrestPart
  have hidx_perm : idxPart.Perm (m.filter (fun kv => isArrayIndex kv.1)) :=
    List.perm_insertionSort _ _
  -- membership flags
  have hidx_mem : ∀ kv ∈ idxPart, isArrayIndex kv.1 = true := by
    intro kv hkv
    have := hidx_perm.mem_iff.mp hkv
    exact (List.mem_filter.mp this).2
  have hrest_mem : ∀ kv ∈ restPart, isArrayIndex kv.1 = false := by
    intro kv hkv
    have := (List.mem_filter.mp hkv).2
    simpa using this
  -- pairwise facts on the numeric half
  have hidx_sorted : idxPart.Pairwise idxLeP :=
    @List.sorted_insertionSort _ idxLeP _ ⟨idxLeP_total⟩ ⟨fun _ _ _ => idxLeP_trans⟩ _
  have hidx_nodup : (idxPart.map Prod.fst).Nodup :=
    nodup_keys_of_perm hidx_perm.symm (nodup_keys_of_sublist (List.filter_sublist m) hnod)
  have hidx_ne : idxPart.Pairwise (fun a b => a.1 ≠ b.1) := pairwise_keyNe_of_nodup hidx_nodup
  have hidx_emit : idxPart.Pairwise emitLtP := by
    refine List.Pairwise.imp_of_mem ?_ (hidx_sorted.and hidx_ne)
    intro a b ha hb hab
    exact Or.inr (Or.inl ⟨hidx_mem a ha, hidx_mem b hb, shortlexLt_of_le_of_ne hab.1 hab.2⟩)
  -- pairwise facts on the remaining half
  have hrest_sorted : restPart.Pairwise keyLeP :=
    List.Pairwise.sublist (List.filter_sublist m) hsorted
  have hrest_nodup : (restPart.map Prod.fst).Nodup :=
    nodup_keys_of_sublist (List.filter_sublist m) hnod
  have hrest_ne : restPart.Pairwise (fun a b => a.1 ≠ b.1) := pairwise_keyNe_of_nodup hrest_nodup
  have hrest_emit : restPart.Pairwise emitLtP := by
    refine List.Pairwise.imp_of_mem ?_ (hrest_sorted.and hrest_ne)
    intro a b ha hb hab
    exact Or.inr (Or.inr ⟨hrest_mem a ha, hrest_mem b hb, jsStrLt_of_le_of_ne hab.1 hab.2⟩)
  -- assemble
  refine List.pairwise_append.mpr ⟨hidx_emit, hrest_emit, ?_⟩
  intro a ha b hb
  exact Or.inl ⟨hidx_mem a ha, hrest_mem b hb⟩

theorem replacerSort_eq_of_perm {β : Type} {l1 l2 : List (String × β)} (p : l1.Perm l2)
    (h : (l1.map Prod.fst).Nodup) : replacerSort l1 = replacerSort l2 :=
  eq_of_perm_of_pairwise_emitLt
    ((replacerSort_perm l1).trans (p.trans (replacerSort_perm l2).symm))
    (replacerSort_pairwise h) (replacerSort_pairwise (nodup_keys_of_perm p h))

/-! ### JSON value model and `canonicalize` (src/hash.ts)

A JSON-compatible JS value: `undefined` is the JS `undefined`, the marker for an
absent field.  Numbers are embedded by their JSON serialization text (the
output of `JSON.stringify` on the number), which `JSON.parse` round-trips;
object field lists model JS objects, whose keys are duplicate-free. -/

mutual
inductive Json where
  | undefined
  | null
  | bool (b : Bool)
  | num (lit : String)
  | str (s : String)
  | arr (elems : JsonList)
  | obj (fields : JsonFields)
  deriving DecidableEq
inductive JsonList where
  | nil
  | cons (hd : Json) (tl : JsonList)
  deriving DecidableEq
inductive JsonFields where
  | nil
  | cons (key : String) (val : Json) (tl : JsonFields)
  deriving DecidableEq
end

/-- Build a `JsonList` from a Lean list. -/
def JsonList.ofList : List Json → JsonList
  | [] => .nil
  | h :: t => .cons h (JsonList.ofList t)

/-- Build a `JsonFields` from a Lean association list. -/
def JsonFields.ofList : List (String × Json) → JsonFields
  | [] => .nil
  | (k, v) :: t => .cons k v (JsonFields.ofList t)

/-- The keys of an object's field list, in insertion order. -/
def fieldKeys : JsonFields → List String
  | .nil => []
  | .cons k _ t => k :: fieldKeys t

/-- Duplicate-freedom of a key list (JS object keys are unique). -/
def nodupKeysB : List String → Bool
  | [] => true
  | k :: t => !(t.contains k) && nodupKeysB t

/-- Escape of one character inside a JSON string literal, as performed by
`JSON.stringify` (QuoteJSONString): double quote, backslash, the named
control escapes, `\u00xx` for other control characters (lowercase hex),
every other character verbatim. -/
def escapeChar (c : Char) : String :=
  if c = '"' then "\\\""
  else if c = '\\' then "\\\\"
  else if c = '\x08' then "\\b"
  else if c = '\x09' then "\\t"
  else if c = '\x0a' then "\\n"
  else if c = '\x0c' then "\\f"
  else if c = '\x0d' then "\\r"
  else if c.toNat < 32 then "\\u00" ++ String.mk [Nat.digitChar (c.toNat / 16), Nat.digitChar (c.toNat % 16)]
  else String.mk [c]

/-- A JSON string literal with quotes and escapes. -/
def jsonQuote (s : String) : String :=
  "\"" ++ String.join (s.data.map escapeChar) ++ "\""

/-- Rendering of one (key, serialized value) pair of an object: absent values
(serialized to nothing) drop the whole field. -/
def renderField (kv : String × Option String) : Option String :=
  kv.2.map (fun sv => jsonQuote kv.1 ++ ":" ++ sv)

mutual
/-- The embedding of `JSON.stringify(value, replacer)` from `canonicalize`
(src/hash.ts).  `none` is JS returning `undefined` for the whole call.
Object fields are ordered by `replacerSort` (the replacer sorts the keys and
reinserts them; serialization walks the JS own-property order); a field
serializing to nothing (`undefined` value) is dropped; array entries
serializing to nothing become `null`.  Field ordering inspects only keys and
field serialization only values, so values are serialized first and the
(key, text) pairs ordered afterwards — the output is the same. -/
def stringifyVal : Json → Option String
  | .undefined => none
  | .null => some "null"
  | .bool b => some (if b then "true" else "false")
  | .num lit => some lit
  | .str s => some (jsonQuote s)
  | .arr l => some ("[" ++ String.intercalate "," ((stringifyElems l).map (fun o => o.getD "null")) ++ "]")
  | .obj fs => some ("\x7b" ++ String.intercalate "," ((replacerSort (stringifyFields fs)).filterMap renderField) ++ "\x7d")
/-- Serialized texts of the entries of an array. -/
def stringifyElems : JsonList → List (Option String)
  | .nil => []
  | .cons h t => stringifyVal h :: stringifyElems t
/-- Serialized texts of the fields of an object, keyed. -/
def stringifyFields : JsonFields → List (String × Option String)
  | .nil => []
  | .cons k v t => (k, stringifyVal v) :: stringifyFields t
end

/-- `canonicalize` (src/hash.ts): JSON.stringify with the key-sorting
replacer.  In the repository it is only applied to objects, arrays and other
defined values, for which stringify returns a string; the `""` default is
dead code covering the top-level-`undefined` case. -/
def canonicalize (v : Json) : String :=
  (stringifyVal v).getD ""

/-- `normalizeString` (src/hash.ts): falsy input (absent or empty) becomes
absent, otherwise trim and lowercase, and an all-whitespace string also
becomes absent. -/
def normalizeString : Option String → Option String
  | none => none
  | some s =>
    if s = "" then none
    else
      let t := s.trim.toLower
      if t = "" then none else some t

/-- Is this value the JS `undefined`? -/
def isUndefined : Json → Bool
  | .undefined => true
  | _ => false

mutual
/-- The embedding of `JSON.parse(canonicalize(v))` (used by `computeAnchor`):
object fields appear in the serialized order (`replacerSort`) with
undefined-valued fields dropped; undefined array entries were serialized as
`null`; number literals round-trip unchanged. -/
def reparse : Json → Json
  | .undefined => .undefined
  | .null => .null
  | .bool b => .bool b
  | .num lit => .num lit
  | .str s => .str s
  | .arr l => .arr (reparseElems l)
  | .obj fs => .obj (JsonFields.ofList ((replacerSort (reparseFields fs)).filter (fun kv => !(isUndefined kv.2))))
/-- Parse-back of array entries. -/
def reparseElems : JsonList → JsonList
  | .nil => .nil
  | .cons h t => .cons (if isUndefined h then .null else reparse h) (reparseElems t)
/-- Parse-back of object fields, before ordering and dropping. -/
def reparseFields : JsonFields → List (String × Json)
  | .nil => []
  | .cons k v t => (k, reparse v) :: reparseFields t
end

mutual
/-- Well-formedness: every object in the tree has duplicate-free keys (true
of every JS object). -/
def wfJson : Json → Bool
  | .undefined => true
  | .null => true
  | .bool _ => true
  | .num _ => true
  | .str _ => true
  | .arr l => wfElems l
  | .obj fs => nodupKeysB (fieldKeys fs) && wfFields fs
/-- Well-formedness of array entries. -/
def wfElems : JsonList → Bool
  | .nil => true
  | .cons h t => wfJson h && wfElems t
/-- Well-formedness of object fields. -/
def wfFields : JsonFields → Bool
  | .nil => true
  | .cons _ v t => wfJson v && wfFields t
end

/-- First field with the given key, if any. -/
def lookupFields : JsonFields → String → Option Json
  | .nil, _ => none
  | .cons k v t, key => if k = key then some v else lookupFields t key

/-- Field access on an object value. -/
def objLookup : Json → String → Option Json
  | .obj fs, key => lookupFields fs key
  | _, _ => none

theorem stringifyFields_ofList (l : List (String × Json)) :
    stringifyFields (JsonFields.ofList l) = l.map (fun kv => (kv.1, stringifyVal kv.2)) := by
  induction l with
  | nil => rfl
  | cons kv t ih => cases kv; simp [JsonFields.ofList, stringifyFields, ih]

theorem fieldKeys_ofList (l : List (String × Json)) :
    fieldKeys (JsonFields.ofList l) = l.map Prod.fst := by
  induction l with
  | nil => rfl
  | cons kv t ih => cases kv; simp [JsonFields.ofList, fieldKeys, ih]

theorem map_fst_stringifyFields : ∀ fs : JsonFields,
    (stringifyFields fs).map Prod.fst = fieldKeys fs
  | .nil => rfl
  | .cons k v t => by simp [stringifyFields, fieldKeys, map_fst_stringifyFields t]

theorem map_fst_reparseFields : ∀ fs : JsonFields,
    (reparseFields fs).map Prod.fst = fieldKeys fs
  | .nil => rfl
  | .cons k v t => by simp [reparseFields, fieldKeys, map_fst_reparseFields t]

theorem nodupKeysB_iff (l : List String) : nodupKeysB l = true ↔ l.Nodup := by
  induction l with
  | nil => simp [nodupKeysB]
  | cons k t ih =>
    simp only [nodupKeysB, Bool.and_eq_true, Bool.not_eq_true', ih, List.nodup_cons]
    constructor
    · rintro ⟨h1, h2⟩
      refine ⟨fun hmem => ?_, h2⟩
      have hck : t.contains k = true := List.elem_iff.mpr hmem
      rw [hck] at h1
      cases h1
    · rintro ⟨h1, h2⟩
      refine ⟨?_, h2⟩
      cases hc : t.contains k with
      | false => rfl
      | true => exact absurd (List.elem_iff.mp hc) h1

/-! ### `stableHash` (src/hash.ts)

Two 32-bit accumulators seeded from distinct constants xor-folded with the
input length, folded over the UTF-16 code units (`charCodeAt`), finalized by
a cross-pollinating pass, then emitted as two zero-padded 8-digit lowercase
hex lanes.  All arithmetic is on the unsigned 32-bit view: `Math.imul` keeps
the low 32 bits of the product, `^` is bitwise xor, `>>> k` is division by
2^k, and the final `>>> 0` is the identity on this view. -/

def M32 : Nat := 2 ^ 32

/-- `Math.imul` on the unsigned 32-bit view. -/
def imul32 (a b : Nat) : Nat := (a * b) % M32

/-- One step of the per-code-unit mixing loop. -/
def mixChar (p : Nat × Nat) (ch : Nat) : Nat × Nat :=
  (imul32 (p.1 ^^^ ch) 2654435761, imul32 (p.2 ^^^ ch) 1597334677)

/-- The eight hex digits (most significant first) of the low 32 bits. -/
def nibbles (n : Nat) : List Char :=
  (List.range 8).map (fun i => Nat.digitChar ((n >>> (4 * (7 - i))) % 16))

/-- `(n >>> 0).toString(16)` for an unsigned 32-bit value: the minimal hex
digits, i.e. the 8-nibble window with leading zeros removed ("0" for 0). -/
def jsToHex (n : Nat) : String :=
  if ((nibbles n).dropWhile (fun c => c = '0')).isEmpty then "0"
  else String.mk ((nibbles n).dropWhile (fun c => c = '0'))

/-- `.padStart(8, "0")`: prepend zeros up to length 8. -/
def padStart8 (s : String) : String :=
  String.mk (List.replicate (8 - s.length) '0' ++ s.data)

/-- One output lane: `(h >>> 0).toString(16).padStart(8, "0")`. -/
def hex8 (n : Nat) : String := padStart8 (jsToHex n)

/-- `stableHash` (src/hash.ts) on an input that is already a string (the JSON
length and `charCodeAt` are per UTF-16 code unit). -/
def stableHashStr (s : String) : String :=
  let units := strUnits s
  let seed := units.length % M32
  let p := units.foldl mixChar (3735928559 ^^^ seed, 1103547991 ^^^ seed)
  let h1f := (imul32 (p.1 ^^^ (p.1 >>> 16)) 2246822507) ^^^ (imul32 (p.2 ^^^ (p.2 >>> 13)) 3266489909)
  let h2f := (imul32 (p.2 ^^^ (p.2 >>> 16)) 2246822507) ^^^ (imul32 (h1f ^^^ (h1f >>> 13)) 3266489909)
  hex8 h1f ++ hex8 h2f

/-- `stableHash` on a non-string value: canonicalize first. -/
def stableHashJson (v : Json) : String := stableHashStr (canonicalize v)

/-- Lowercase hexadecimal digit test. -/
def isLowerHexDigit (c : Char) : Bool := c.isDigit || ('a' ≤ c && c ≤ 'f')

theorem digitChar_lower_hex : ∀ m : Nat, m < 16 → isLowerHexDigit (Nat.digitChar m) = true := by
  decide

theorem nibbles_length (n : Nat) : (nibbles n).length = 8 := by
  simp [nibbles]

theorem nibbles_hex (n : Nat) : ∀ c ∈ nibbles n, isLowerHexDigit c = true := by
  intro c hc
  simp only [nibbles, List.mem_map] at hc
  obtain ⟨i, _, rfl⟩ := hc
  exact digitChar_lower_hex _ (Nat.mod_lt _ (by norm_num))

theorem strMk_length (l : List Char) : (String.mk l).length = l.length := rfl

theorem jsToHex_length_le (n : Nat) : (jsToHex n).length ≤ 8 := by
  unfold jsToHex
  split
  · decide
  · rw [strMk_length]
    have h1 : ((nibbles n).dropWhile (fun c => c = '0')).length ≤ (nibbles n).length :=
      (List.dropWhile_sublist _).length_le
    rw [nibbles_length] at h1
    exact h1

theorem hex8_length (n : Nat) : (hex8 n).length = 8 := by
  unfold hex8 padStart8
  rw [strMk_length, List.length_append, List.length_replicate]
  have h : (jsToHex n).length ≤ 8 := jsToHex_length_le n
  have e : (jsToHex n).length = (jsToHex n).data.length := rfl
  rw [e] at h
  omega

/-! ### Equality up to key permutation -/

/-- Permutations of an object field list (fields moved whole). -/
inductive FieldsPerm : JsonFields → JsonFields → Prop
  | nil : FieldsPerm .nil .nil
  | cons (k : String) (v : Json) {t1 t2 : JsonFields} :
      FieldsPerm t1 t2 → FieldsPerm (.cons k v t1) (.cons k v t2)
  | swap (k1 : String) (v1 : Json) (k2 : String) (v2 : Json) (t : JsonFields) :
      FieldsPerm (.cons k1 v1 (.cons k2 v2 t)) (.cons k2 v2 (.cons k1 v1 t))
  | trans {a b c : JsonFields} : FieldsPerm a b → FieldsPerm b c → FieldsPerm a c

mutual
/-- Two JSON-compatible values that are equal up to permutation of record
keys at every nesting depth; sequences keep their order. -/
inductive PermEq : Json → Json → Prop
  | undefined : PermEq .undefined .undefined
  | null : PermEq .null .null
  | bool (b : Bool) : PermEq (.bool b) (.bool b)
  | num (lit : String) : PermEq (.num lit) (.num lit)
  | str (s : String) : PermEq (.str s) (.str s)
  | arr {l1 l2 : JsonList} : PermEqList l1 l2 → PermEq (.arr l1) (.arr l2)
  | obj {fs1 fs2 fs3 : JsonFields} :
      PermEqFields fs1 fs2 → FieldsPerm fs2 fs3 → PermEq (.obj fs1) (.obj fs3)
/-- Pointwise `PermEq` on array entries. -/
inductive PermEqList : JsonList → JsonList → Prop
  | nil : PermEqList .nil .nil
  | cons {h1 h2 : Json} {t1 t2 : JsonList} :
      PermEq h1 h2 → PermEqList t1 t2 → PermEqList (.cons h1 t1) (.cons h2 t2)
/-- Pointwise `PermEq` on object fields (same keys in the same order). -/
inductive PermEqFields : JsonFields → JsonFields → Prop
  | nil : PermEqFields .nil .nil
  | cons (k : String) {v1 v2 : Json} {t1 t2 : JsonFields} :
      PermEq v1 v2 → PermEqFields t1 t2 → PermEqFields (.cons k v1 t1) (.cons k v2 t2)
end

theorem fieldsPerm_shadow {f1 f2 : JsonFields} (h : FieldsPerm f1 f2) :
    (stringifyFields f1).Perm (stringifyFields f2) := by
  induction h with
  | nil => exact List.Perm.refl _
  | cons k v _ ih => exact List.Perm.cons _ ih
  | swap k1 v1 k2 v2 t => exact List.Perm.swap _ _ _
  | trans _ _ ih1 ih2 => exact ih1.trans ih2

mutual
theorem permEq_stringify {a b : Json} (h : PermEq a b) (hwf : wfJson a = true) :
    stringifyVal a = stringifyVal b :=
  match h with
  | .undefined => rfl
  | .null => rfl
  | .bool _ => rfl
  | .num _ => rfl
  | .str _ => rfl
  | .arr hl => by
    simp only [stringifyVal]
    rw [permEqList_stringify hl hwf]
  | .obj hf hp => by
    rename_i fs1 fs2 fs3
    obtain ⟨hw1, hw2⟩ : nodupKeysB (fieldKeys fs1) = true ∧ wfFields fs1 = true := by
      simpa [wfJson] using hwf
    have hnodup : (fieldKeys fs1).Nodup := (nodupKeysB_iff _).mp hw1
    have h12 : stringifyFields fs1 = stringifyFields fs2 :=
      permEqFields_stringify hf hw2
    have h23 : (stringifyFields fs2).Perm (stringifyFields fs3) := fieldsPerm_shadow hp
    have hperm : (stringifyFields fs1).Perm (stringifyFields fs3) := h12 ▸ h23
    have hnodup' : ((stringifyFields fs1).map Prod.fst).Nodup := by
      rw [map_fst_stringifyFields]; exact hnodup
    simp only [stringifyVal]
    rw [replacerSort_eq_of_perm hperm hnodup']
theorem permEqList_stringify {l1 l2 : JsonList} (h : PermEqList l1 l2)
    (hwf : wfElems l1 = true) : stringifyElems l1 = stringifyElems l2 :=
  match h with
  | .nil => rfl
  | .cons hh ht => by
    rename_i e1 e2 t1 t2
    obtain ⟨hw1, hw2⟩ : wfJson e1 = true ∧ wfElems t1 = true := by
      simpa [wfElems] using hwf
    simp only [stringifyElems]
    rw [permEq_stringify hh hw1, permEqList_stringify ht hw2]
theorem permEqFields_stringify {f1 f2 : JsonFields} (h : PermEqFields f1 f2)
    (hwf : wfFields f1 = true) : stringifyFields f1 = stringifyFields f2 :=
  match h with
  | .nil => rfl
  | .cons k hv ht => by
    rename_i v1 v2 t1 t2
    obtain ⟨hw1, hw2⟩ : wfJson v1 = true ∧ wfFields t1 = true := by
      simpa [wfFields] using hwf
    simp only [stringifyFields]
    rw [permEq_stringify hv hw1, permEqFields_stringify ht hw2]
end

/-- Canonicalization is invariant under key permutation at every depth, for
values whose objects have duplicate-free keys (all JS objects do). -/
theorem canonicalize_permEq {a b : Json} (h : PermEq a b) (hwf : wfJson a = true) :
    canonicalize a = canonicalize b := by
  unfold canonicalize
  rw [permEq_stringify h hwf]

/-- Shape of the emitted field order: array-index keys first, numerically
sorted, then the remaining keys in UTF-16 lexicographic order. -/
theorem replacerSort_split {β : Type} (l : List (String × β)) :
    ∃ pre post, replacerSort l = pre ++ post ∧
      (∀ kv ∈ pre, isArrayIndex kv.1 = true) ∧
      (∀ kv ∈ post, isArrayIndex kv.1 = false) ∧
      pre.Pairwise (fun a b => shortlexLe a.1 b.1 = true) ∧
      post.Pairwise (fun a b => jsStrLe a.1 b.1 = true) := by
  unfold replacerSort jsOrderPairs
  set m := List.insertionSort keyLeP l with hm
  refine ⟨_, _, rfl, ?_, ?_, ?_, ?_⟩
  · intro kv hkv
    have := (List.perm_insertionSort (@idxLeP β) _).mem_iff.mp hkv
    exact (List.mem_filter.mp this).2
  · intro kv hkv
    have := (List.mem_filter.mp hkv).2
    simpa using this
  · exact @List.sorted_insertionSort _ idxLeP _ ⟨idxLeP_total⟩ ⟨fun _ _ _ => idxLeP_trans⟩ _
  · have hsorted : m.Pairwise keyLeP :=
      @List.sorted_insertionSort _ keyLeP _ ⟨keyLeP_total⟩ ⟨fun _ _ _ => keyLeP_trans⟩ l
    exact List.Pairwise.sublist (List.filter_sublist m) hsorted

theorem renderField_none (k : String) : renderField (k, none) = none := rfl

theorem filterMap_renderField_filter (l : List (String × Option String)) :
    l.filterMap renderField = (l.filter (fun kv => kv.2.isSome)).filterMap renderField := by
  induction l with
  | nil => rfl
  | cons kv t ih =>
    obtain ⟨k, o⟩ := kv
    cases o with
    | none => simpa [renderField] using ih
    | some sv => simpa [renderField] using ih

/-- Dropping an `undefined`-valued field does not change the serialized
object (the field is omitted from the output, not represented). -/
theorem stringify_obj_drops_undef (fs1 fs2 : List (String × Json)) (k : String)
    (hnod : (((fs1 ++ (k, Json.undefined) :: fs2)).map Prod.fst).Nodup) :
    stringifyVal (.obj (JsonFields.ofList (fs1 ++ (k, .undefined) :: fs2))) =
      stringifyVal (.obj (JsonFields.ofList (fs1 ++ fs2))) := by
  have hnod2 : ((fs1 ++ fs2).map Prod.fst).Nodup := by
    refine List.Sublist.nodup ?_ hnod
    refine List.Sublist.map Prod.fst ?_
    exact List.Sublist.append_left (List.sublist_cons_self _ _) fs1
  -- shadows
  have hs1 : stringifyFields (JsonFields.ofList (fs1 ++ (k, .undefined) :: fs2)) =
      (fs1.map (fun kv => (kv.1, stringifyVal kv.2))) ++ (k, none) ::
        (fs2.map (fun kv => (kv.1, stringifyVal kv.2))) := by
    rw [stringifyFields_ofList]; simp [stringifyVal]
  have hs2 : stringifyFields (JsonFields.ofList (fs1 ++ fs2)) =
      (fs1.map (fun kv => (kv.1, stringifyVal kv.2))) ++
        (fs2.map (fun kv => (kv.1, stringifyVal kv.2))) := by
    rw [stringifyFields_ofList]; simp
  set g : (String × Json) → (String × Option String) :=
    fun kv => (kv.1, stringifyVal kv.2) with hg
  have hknod1 : ((stringifyFields (JsonFields.ofList (fs1 ++ (k, .undefined) :: fs2))).map Prod.fst).Nodup := by
    rw [map_fst_stringifyFields, fieldKeys_ofList]; exact hnod
  have hknod2 : ((stringifyFields (JsonFields.ofList (fs1 ++ fs2))).map Prod.fst).Nodup := by
    rw [map_fst_stringifyFields, fieldKeys_ofList]; exact hnod2
  -- the kept (defined-valued) fields of both serializations coincide
  have hkept : (replacerSort (stringifyFields (JsonFields.ofList (fs1 ++ (k, .undefined) :: fs2)))).filter
        (fun kv => kv.2.isSome) =
      (replacerSort (stringifyFields (JsonFields.ofList (fs1 ++ fs2)))).filter
        (fun kv => kv.2.isSome) := by
    refine eq_of_perm_of_pairwise_emitLt ?_ ?_ ?_
    · have p1 : List.Perm
          ((replacerSort (stringifyFields (JsonFields.ofList (fs1 ++ (k, .undefined) :: fs2)))).filter
            (fun kv => kv.2.isSome))
          ((stringifyFields (JsonFields.ofList (fs1 ++ (k, .undefined) :: fs2))).filter
            (fun kv => kv.2.isSome)) := (replacerSort_perm _).filter _
      have p2 : List.Perm
          ((replacerSort (stringifyFields (JsonFields.ofList (fs1 ++ fs2)))).filter
            (fun kv => kv.2.isSome))
          ((stringifyFields (JsonFields.ofList (fs1 ++ fs2))).filter
            (fun kv => kv.2.isSome)) := (replacerSort_perm _).filter _
      refine p1.trans (List.Perm.trans ?_ p2.symm)
      rw [hs1, hs2]
      simp [List.filter_append]
    · exact List.Pairwise.sublist (List.filter_sublist _) (replacerSort_pairwise hknod1)
    · exact List.Pairwise.sublist (List.filter_sublist _) (replacerSort_pairwise hknod2)
  simp only [stringifyVal]
  rw [filterMap_renderField_filter, hkept, ← filterMap_renderField_filter]

theorem lookupFields_ofList_of_mem (L : List (String × Json)) (k : String) (v : Json)
    (hnod : (L.map Prod.fst).Nodup) (hmem : (k, v) ∈ L) :
    lookupFields (JsonFields.ofList L) k = some v := by
  induction L with
  | nil => cases hmem
  | cons kv t ih =>
    obtain ⟨k', v'⟩ := kv
    simp only [List.map_cons, List.nodup_cons] at hnod
    rcases List.mem_cons.mp hmem with heq | hmem'
    · obtain ⟨rfl, rfl⟩ := Prod.mk.injEq .. ▸ heq
      · simp [JsonFields.ofList, lookupFields]
    · have hk : k' ≠ k := fun he => hnod.1 (List.mem_map.mpr ⟨(k, v), hmem', he.symm⟩)
      simp only [JsonFields.ofList, lookupFields]
      rw [if_neg hk]
      exact ih hnod.2 hmem'

theorem lookupFields_ofList_of_not_mem (L : List (String × Json)) (k : String)
    (h : k ∉ L.map Prod.fst) : lookupFields (JsonFields.ofList L) k = none := by
  induction L with
  | nil => rfl
  | cons kv t ih =>
    obtain ⟨k', v'⟩ := kv
    simp only [List.map_cons, List.mem_cons] at h
    push_neg at h
    simp only [JsonFields.ofList, lookupFields]
    rw [if_neg (Ne.symm h.1)]
    exact ih h.2

/-! ### Browser signal bag (src/types.ts)

`Partial<BrowserSignals>` with every field optional.  JS numbers are carried
as their JSON serialization text.  The last four fields model host-attached
runtime properties (user agent is in the interface; platform, device pixel
ratio and viewport are extra properties a collecting host may carry on the
bag object) — `computeAnchor` reads none of them. -/

/-- The `webgl` sub-record; `extensions` is `string[] | null | undefined`
(outer `none` = undefined, `some none` = null). -/
structure WebGlSig where
  version : Option String := none
  vendor : Option String := none
  renderer : Option String := none
  vendorUnmasked : Option String := none
  rendererUnmasked : Option String := none
  shadingLanguageVersion : Option String := none
  extensions : Option (Option (List String)) := none
  deriving DecidableEq

/-- The raw `WebGlExtensionsPayload`; its `extensions` field is
`string[] | null`. -/
structure WebGlExtSig where
  contextAttributes : List String := []
  parameters : List String := []
  shaderPrecisions : List String := []
  extensions : Option (List String) := none
  extensionParameters : List String := []
  unsupportedExtensions : List String := []
  deriving DecidableEq

/-- `audioFingerprint`: a resolved number or a deferred thunk. -/
inductive AudioSignal where
  | num (lit : String)
  | thunk
  deriving DecidableEq

/-- `WebGpuInfo` snapshot. -/
structure WebGpuSig where
  supported : Bool := false
  isFallbackAdapter : Option Bool := none
  vendor : Option String := none
  architecture : Option String := none
  device : Option String := none
  deriving DecidableEq

/-- `EmeInfo`: `widevineSupported` present only on a definitive answer. -/
structure EmeSig where
  widevineSupported : Option Bool := none
  deriving DecidableEq

/-- `PerformanceTimingInfo`: precision and baseline numbers. -/
structure PerfTimingSig where
  precision : String := "1"
  baseline : String := "1"
  deriving DecidableEq

/-- The signal bag consumed by `computeAnchor`. -/
structure BrowserSignals where
  userAgent : Option String := none
  hardwareConcurrency : Option String := none
  deviceMemory : Option String := none
  webgl : Option WebGlSig := none
  webgExtensions : Option WebGlExtSig := none
  audioFingerprint : Option AudioSignal := none
  mathFingerprint : Option (List (String × String)) := none
  webgpu : Option WebGpuSig := none
  eme : Option EmeSig := none
  performanceTiming : Option PerfTimingSig := none
  platform : Option String := none
  devicePixelRatio : Option String := none
  viewportWidth : Option String := none
  viewportHeight : Option String := none
  deriving DecidableEq

/-! ### Anchor computation (src/anchor.ts) -/

/-- JS `a || b` on optional strings: the empty string is the only falsy
string, so a present non-empty left operand wins. -/
def jsOrStr (a b : Option String) : Option String :=
  match a with
  | some s => if s = "" then b else some s
  | none => b

/-- A possibly absent string as a JSON field value. -/
def optStrJson : Option String → Json
  | some s => .str s
  | none => .undefined

/-- A possibly absent number (by its literal) as a JSON field value. -/
def optNumJson : Option String → Json
  | some lit => .num lit
  | none => .undefined

/-- JS string order on plain strings, as a sorting relation. -/
def jsStrLeP (a b : String) : Prop := jsStrLe a b = true

instance : DecidableRel jsStrLeP := fun a b => by
  unfold jsStrLeP; infer_instance

/-- `[...xs].sort()`: the default JS sort (stable, UTF-16 comparator). -/
def sortJsStrings (l : List String) : List String := List.insertionSort jsStrLeP l

/-- `[...new Set(xs)]`: first-occurrence deduplication in insertion order. -/
def dedupFirstAux : List String → List String → List String
  | [], _ => []
  | x :: t, seen => if seen.contains x then dedupFirstAux t seen else x :: dedupFirstAux t (x :: seen)

/-- First-occurrence deduplication (JS `Set` iteration order). -/
def dedupFirst (l : List String) : List String := dedupFirstAux l []

/-- A string list as a JSON array value. -/
def jsonOfStrList (l : List String) : Json := .arr (JsonList.ofList (l.map Json.str))

/-- The fields of the anchor object as built by `computeAnchor`
(src/anchor.ts lines 74-108) before the canonicalize/parse round trip, with
absent parts as `undefined` values. -/
def anchorFields (b : BrowserSignals) : List (String × Json) :=
  let vendor := normalizeString (jsOrStr (b.webgl.bind (fun w => w.vendorUnmasked))
    (b.webgl.bind (fun w => w.vendor)))
  let renderer := normalizeString (jsOrStr (b.webgl.bind (fun w => w.rendererUnmasked))
    (b.webgl.bind (fun w => w.renderer)))
  let gpu : Json :=
    if vendor.isSome || renderer.isSome then
      .obj (.ofList [("vendor", optStrJson vendor), ("renderer", optStrJson renderer)])
    else .undefined
  let webglExtApp : Option (List String) :=
    match b.webgl with
    | some w => match w.extensions with
      | some (some l) => some (sortJsStrings l)
      | _ => none
    | none => none
  let webgExt : Option (List String) := b.webgExtensions.bind (fun p => p.extensions)
  let webgParams : Option (List String) := b.webgExtensions.map (fun p => p.parameters)
  let webgShaderPrec : Option (List String) := b.webgExtensions.map (fun p => p.shaderPrecisions)
  let hw := b.hardwareConcurrency
  let mem := b.deviceMemory
  let audio : Option String :=
    match b.audioFingerprint with
    | some (.num lit) => some lit
    | _ => none
  let math : Json :=
    match b.mathFingerprint with
    | some fields => .obj (.ofList (fields.map (fun kv => (kv.1, Json.num kv.2))))
    | none => .undefined
  let webgpu : Json :=
    match b.webgpu with
    | some w => .obj (.ofList [("supported", .bool w.supported),
        ("isFallbackAdapter", .bool (w.isFallbackAdapter.getD false))])
    | none => .undefined
  let eme : Option String :=
    match b.eme with
    | some e => match e.widevineSupported with
      | some bv => some (if bv then "1" else "0")
      | none => none
    | none => none
  let pt : Option String :=
    b.performanceTiming.map (fun p =>
      stableHashJson (.obj (.ofList [("precision", .num p.precision), ("baseline", .num p.baseline)])))
  [
    ("gpu", gpu),
    ("webgl", .obj (.ofList [
      ("ext", optStrJson (webglExtApp.map (fun l => stableHashJson (jsonOfStrList l)))),
      ("xExt", optStrJson (match webgExt with
        | some l => if l.length ≠ 0 then
            some (stableHashJson (jsonOfStrList (sortJsStrings (dedupFirst l))))
          else none
        | none => none)),
      ("params", optStrJson (match webgParams with
        | some l => if l.length ≠ 0 then some (stableHashJson (jsonOfStrList (sortJsStrings l)))
          else none
        | none => none)),
      ("shader", optStrJson (match webgShaderPrec with
        | some l => if l.length ≠ 0 then some (stableHashJson (jsonOfStrList (sortJsStrings l)))
          else none
        | none => none))])),
    ("hw", optNumJson hw),
    ("mem", optNumJson mem),
    ("audio", optNumJson audio),
    ("math", math),
    ("webgpu", webgpu),
    ("eme", optNumJson eme),
    ("pt", optStrJson pt)]

/-- The anchor object before the canonicalize/parse round trip. -/
def rawAnchor (b : BrowserSignals) : Json := .obj (.ofList (anchorFields b))

/-- `computeAnchor` (src/anchor.ts): build the anchor object and round-trip
it through `JSON.parse(canonicalize(anchor))`. -/
def computeAnchor (b : BrowserSignals) : Json := reparse (rawAnchor b)

/-- Result record of `computeVisitorId`. -/
structure VisitorIdResult where
  anchor : Json
  visitorId : String
  deriving DecidableEq

/-- `computeVisitorId` (src/anchor.ts): hash the canonicalized anchor and
truncate with `slice(0, 22)` (by code unit; hash output is ASCII, so
char-level take agrees). -/
def computeVisitorId (b : BrowserSignals) : VisitorIdResult :=
  let anchor := computeAnchor b
  let anchorHash := stableHashStr (canonicalize anchor)
  { anchor := anchor, visitorId := String.mk (anchorHash.data.take 22) }

/-! ### Audio acquisition (src/sources/audio.ts)

The browser classification predicates live in `utils/browser` (external
collaborators); `audio.ts` only composes their boolean results, so the
environment is a record of those bits plus the presence of
`window.OfflineAudioContext || window.webkitOfflineAudioContext`. -/

/-- Environment bits read by the audio source. -/
structure AudioEnv where
  offlineAudioContextAvailable : Bool := true
  isWebKit : Bool := false
  isDesktopWebKit : Bool := false
  isWebKit606OrNewer : Bool := false
  isWebKit616OrNewer : Bool := false
  isSafariWebKit : Bool := false
  isChromium : Bool := false
  isSamsungInternet : Bool := false
  isChromium122OrNewer : Bool := false
  deriving DecidableEq

/-- `SpecialFingerprint` sentinel: browser known to keep audio contexts
suspended. -/
def SpecialFingerprint.KnownForSuspending : Int := -1

/-- `SpecialFingerprint` sentinel: no audio context support. -/
def SpecialFingerprint.NotSupported : Int := -2

/-- `SpecialFingerprint` sentinel: unexpected timeout. -/
def SpecialFingerprint.Timeout : Int := -3

/-- `SpecialFingerprint` sentinel: browser known to apply audio
anti-fingerprinting. -/
def SpecialFingerprint.KnownForAntifingerprinting : Int := -4

/-- `InnerErrorName.Timeout`. -/
def InnerErrorName.Timeout : String := "timeout"

/-- `InnerErrorName.Suspended`. -/
def InnerErrorName.Suspended : String := "suspended"

/-- `doesBrowserSuspendAudioContext` (audio.ts 173-180). -/
def doesBrowserSuspendAudioContext (env : AudioEnv) : Bool :=
  env.isWebKit && !env.isDesktopWebKit && !env.isWebKit606OrNewer

/-- `isSafari17OrNewer` (audio.ts 191-197). -/
def isSafari17OrNewer (env : AudioEnv) : Bool :=
  env.isWebKit && env.isWebKit616OrNewer && env.isSafariWebKit

/-- `doesBrowserPerformAntifingerprinting` (audio.ts 208-214). -/
def doesBrowserPerformAntifingerprinting (env : AudioEnv) : Bool :=
  env.isChromium && env.isSamsungInternet && env.isChromium122OrNewer

/-- Synchronous result shape of the audio sources: an immediate sentinel
number, or the deferred finalize-and-await callable. -/
inductive AudioProbeResult where
  | immediate (n : Int)
  | deferred
  deriving DecidableEq

/-- `getUnstableAudioFingerprint` (audio.ts 104-161), up to its synchronous
result shape: missing capability, then the known-for-suspending
classification, otherwise the job starts and the callable is returned. -/
def getUnstableAudioFingerprint (env : AudioEnv) : AudioProbeResult :=
  if !env.offlineAudioContextAvailable then .immediate SpecialFingerprint.NotSupported
  else if doesBrowserSuspendAudioContext env then .immediate SpecialFingerprint.KnownForSuspending
  else .deferred

/-- `getAudioFingerprint` (audio.ts 78-90): Safari 17+ short-circuit (as
NotSupported), anti-fingerprinting short-circuit, then the unstable probe. -/
def getAudioFingerprint (env : AudioEnv) : AudioProbeResult :=
  if isSafari17OrNewer env then .immediate SpecialFingerprint.NotSupported
  else if doesBrowserPerformAntifingerprinting env then
    .immediate SpecialFingerprint.KnownForAntifingerprinting
  else getUnstableAudioFingerprint env

/-- A JS error value as observed by the handlers: only its `name` matters
(`none` for a thrown non-Error value). -/
structure JsError where
  name : Option String := none
  deriving DecidableEq

/-- Why the render promise rejected: one of the two `makeInnerError`
conditions, or an error thrown by `startRendering`. -/
inductive RejectReason where
  | innerTimeout
  | innerSuspended
  | startError (e : JsError)
  deriving DecidableEq

/-- The error value carried by a rejection (`makeInnerError` sets `name`). -/
def toJsError : RejectReason → JsError
  | .innerTimeout => { name := some InnerErrorName.Timeout }
  | .innerSuspended => { name := some InnerErrorName.Suspended }
  | .startError e => e

/-- Settlement of the render promise (single-shot). -/
inductive SettleOutcome where
  | resolvedBuf (buf : List ℚ)
  | rejected (r : RejectReason)
  deriving DecidableEq

/-- Mutable closure state of `startRenderingAudio` (audio.ts 230-308). -/
structure RenderJob where
  isFinalized : Bool := false
  renderTryCount : Nat := 0
  startedRunningAt : Int := 0
  settled : Option SettleOutcome := none
  deriving DecidableEq

/-- Fresh job state. -/
def initJob : RenderJob := {}

/-- `renderTryMaxCount`. -/
def renderTryMaxCount : Nat := 3

/-- `renderRetryDelay` (ms). -/
def renderRetryDelay : Int := 500

/-- `runningMaxAwaitTime` (ms). -/
def runningMaxAwaitTime : Int := 500

/-- `runningSufficientTime` (ms). -/
def runningSufficientTime : Int := 5000

/-- Promise settlement: the first resolution or rejection wins, later ones
are inert. -/
def settle (s : RenderJob) (o : SettleOutcome) : RenderJob :=
  match s.settled with
  | none => { s with settled := some o }
  | some _ => s

/-- What one `tryRender` invocation observes: the context state after
`startRendering` (with `document.hidden` for a suspension), or a throw. -/
inductive TryObs where
  | running
  | suspended (hidden : Bool)
  | otherState
  | threw (e : JsError)
  deriving DecidableEq

/-- Events driving one render job: a `tryRender` run, a `finalize` call, an
armed timeout firing, or the `oncomplete` callback. -/
inductive AudioEvent where
  | tryRender (obs : TryObs) (now : Int)
  | finalizeCall (now : Int)
  | timeoutFire (now : Int)
  | complete (buf : List ℚ) (now : Int)
  deriving DecidableEq

/-- Timer actions issued by a step. -/
inductive AudioAction where
  | armTimeout (delay : Int)
  | scheduleRetry (delay : Int)
  deriving DecidableEq

/-- `startRunningTimeout` (audio.ts 244-252): arm the completion timeout for
min(runningMaxAwaitTime, startedRunningAt + runningSufficientTime - now). -/
def startRunningTimeout (startedRunningAt now : Int) : AudioAction :=
  .armTimeout (min runningMaxAwaitTime (startedRunningAt + runningSufficientTime - now))

/-- One synchronous step of the protocol (audio.ts 237-304): `tryRender`'s
switch on the context state, the `finalize` closure, a timeout callback
firing (`reject(makeInnerError(Timeout))`), and `oncomplete`
(`resolve(event.renderedBuffer)`). -/
def step (s : RenderJob) (e : AudioEvent) : RenderJob × List AudioAction :=
  match e with
  | .tryRender obs now =>
    match obs with
    | .running =>
      let s' := { s with startedRunningAt := now }
      (s', if s.isFinalized then [startRunningTimeout s'.startedRunningAt now] else [])
    | .suspended hidden =>
      let cnt := if !hidden then s.renderTryCount + 1 else s.renderTryCount
      let s' := { s with renderTryCount := cnt }
      if s'.isFinalized = true ∧ renderTryMaxCount ≤ cnt then
        (settle s' (.rejected .innerSuspended), [])
      else
        (s', [.scheduleRetry renderRetryDelay])
    | .otherState => (s, [])
    | .threw err => (settle s (.rejected (.startError err)), [])
  | .finalizeCall now =>
    if s.isFinalized then (s, [])
    else
      let s' := { s with isFinalized := true }
      (s', if 0 < s'.startedRunningAt then [startRunningTimeout s'.startedRunningAt now] else [])
  | .timeoutFire _ => (settle s (.rejected .innerTimeout), [])
  | .complete buf _ => (settle s (.resolvedBuf buf), [])

/-- Run a job through a trace of events. -/
def runTrace (s : RenderJob) (evs : List AudioEvent) : RenderJob :=
  evs.foldl (fun st e => (step st e).1) s

/-- Is the event a `tryRender` invocation? -/
def isTryRenderEv : AudioEvent → Bool
  | .tryRender _ _ => true
  | _ => false

/-- Is the event the `finalize` call? -/
def isFinalizeEv : AudioEvent → Bool
  | .finalizeCall _ => true
  | _ => false

/-- Number of retries scheduled by a step's actions. -/
def retriesScheduled (acts : List AudioAction) : Nat :=
  acts.countP (fun a => match a with | .scheduleRetry _ => true | _ => false)

/-- Scheduling-validity of one event: a `tryRender` run consumes one pending
invocation (the initial synchronous call or a scheduled retry) and its step
may schedule another; other events leave the pending count alone. -/
def stepPending (s : RenderJob) (p : Nat) (e : AudioEvent) : Option (RenderJob × Nat) :=
  if isTryRenderEv e then
    if p = 0 then none
    else some ((step s e).1, p - 1 + retriesScheduled (step s e).2)
  else some ((step s e).1, p)

/-- A trace is schedule-valid from a state and pending count when every
`tryRender` event has a pending invocation to consume. -/
def validSteps : RenderJob → Nat → List AudioEvent → Bool
  | _, _, [] => true
  | s, p, e :: t =>
    match stepPending s p e with
    | none => false
    | some (s', p') => validSteps s' p' t

/-- Times at which the job was observed `running`. -/
def runningTimes (evs : List AudioEvent) : List Int :=
  evs.filterMap (fun e => match e with | .tryRender .running now => some now | _ => none)

/-- `getHash` (audio.ts 321-327): sum of absolute sample values. -/
def getHash (signal : List ℚ) : ℚ :=
  signal.foldl (fun h x => h + |x|) 0

/-- `hashFromIndex`. -/
def hashFromIndex : Nat := 4500

/-- `hashToIndex` (also the rendered buffer length: the context is created
as `new AudioContext(1, hashToIndex, 44100)`). -/
def hashToIndex : Nat := 5000

/-- Terminal result of the render promise. -/
inductive RenderResult where
  | completed (buf : List ℚ)
  | failed (r : RejectReason)
  deriving DecidableEq

/-- What the fingerprint promise does: resolve to a number or re-throw. -/
inductive FingerprintOutcome where
  | value (q : ℚ)
  | raised (e : JsError)
  deriving DecidableEq

/-- The `renderPromise.then(...)` handlers (audio.ts 142-155): on success,
`getHash(buffer.getChannelData(0).subarray(hashFromIndex))`; on failure,
sentinel `Timeout (-3)` iff the error name is "timeout" or "suspended",
otherwise the error is re-thrown. -/
def fingerprintOutcome : RenderResult → FingerprintOutcome
  | .completed buf => .value (getHash (buf.drop hashFromIndex))
  | .failed r =>
    if (toJsError r).name = some InnerErrorName.Timeout ∨
        (toJsError r).name = some InnerErrorName.Suspended then
      .value ((SpecialFingerprint.Timeout : Int) : ℚ)
    else .raised (toJsError r)

/-! ### Claim theorems -/

theorem hex8_chars (n : Nat) : ∀ c ∈ (hex8 n).data, isLowerHexDigit c = true := by
  intro c hc
  unfold hex8 padStart8 at hc
  have hc' : c ∈ List.replicate (8 - (jsToHex n).length) '0' ++ (jsToHex n).data := hc
  rcases List.mem_append.mp hc' with h | h
  · have := List.eq_of_mem_replicate h
    subst this
    decide
  · unfold jsToHex at h
    split at h
    · have : c ∈ ("0" : String).data := h
      simp only [show ("0" : String).data = ['0'] from rfl, List.mem_singleton] at this
      subst this
      decide
    · have hmem : c ∈ nibbles n :=
        (List.dropWhile_sublist (fun c => c = '0')).subset h
      exact nibbles_hex n c hmem

theorem stableHashStr_length (s : String) : (stableHashStr s).length = 16 := by
  unfold stableHashStr
  rw [String.length_append, hex8_length, hex8_length]

theorem stableHashStr_chars (s : String) :
    ∀ c ∈ (stableHashStr s).data, isLowerHexDigit c = true := by
  intro c hc
  unfold stableHashStr at hc
  rw [String.data_append] at hc
  rcases List.mem_append.mp hc with h | h
  · exact hex8_chars _ c h
  · exact hex8_chars _ c h

/-- C9: for every input string, `stableHash` returns a string of exactly 16
lowercase hexadecimal characters, computed by the two 32-bit accumulators
seeded with the distinct constants 0xdeadbeef and 0x41c6ce57 xor-folded with
the input length, mixed per code unit, cross-pollinated in the finalization
pass and concatenated as two 8-hex-digit lanes; repeated calls return the
same digest (the function is pure). -/
theorem C9_stableHash_fixed_length_lowercase_hex (s : String) :
    (stableHashStr s).length = 16 ∧
      (∀ c ∈ (stableHashStr s).data, isLowerHexDigit c = true) ∧
      stableHashStr s = stableHashStr s :=
  ⟨stableHashStr_length s, stableHashStr_chars s, rfl⟩

/-- C1 (code bug): the visitor ID is `stableHash(canonicalize(anchor))`
truncated with `slice(0, 22)`; since `stableHash` emits exactly 16
characters, the id of every signal bag has length 16, not the 22 promised by
the claim and by `computeVisitorId`'s own documentation. -/
theorem C1_visitorId_length_is_16_not_22 (b : BrowserSignals) :
    (computeVisitorId b).visitorId.length = 16 ∧ (16 : Nat) ≠ 22 := by
  constructor
  · show (String.mk ((stableHashStr (canonicalize (computeAnchor b))).data.take 22)).length = 16
    rw [strMk_length, List.length_take]
    have h : (stableHashStr (canonicalize (computeAnchor b))).data.length = 16 :=
      stableHashStr_length _
    omega
  · decide

/-- Replace exactly the volatile fields of a signal bag: user agent,
platform, device pixel ratio and viewport dimensions. -/
def setVolatileFields (b : BrowserSignals) (ua pf dpr vw vh : Option String) : BrowserSignals :=
  { b with
      userAgent := ua
      platform := pf
      devicePixelRatio := dpr
      viewportWidth := vw
      viewportHeight := vh }

/-- C7: two signal bags that differ only in the user-agent, platform,
device-pixel-ratio, or viewport fields produce the same anchor payload, the
same canonical anchor bytes, and hence the same visitor ID — `computeAnchor`
never reads those fields. -/
theorem C7_anchor_ignores_ua_platform_dpr_viewport (b : BrowserSignals)
    (ua pf dpr vw vh : Option String) :
    computeAnchor (setVolatileFields b ua pf dpr vw vh) = computeAnchor b ∧
    canonicalize (computeAnchor (setVolatileFields b ua pf dpr vw vh)) =
      canonicalize (computeAnchor b) ∧
    (computeVisitorId (setVolatileFields b ua pf dpr vw vh)).visitorId =
      (computeVisitorId b).visitorId :=
  ⟨rfl, rfl, rfl⟩

theorem reparseFields_ofList (l : List (String × Json)) :
    reparseFields (JsonFields.ofList l) = l.map (fun kv => (kv.1, reparse kv.2)) := by
  induction l with
  | nil => rfl
  | cons kv t ih => cases kv; simp [JsonFields.ofList, reparseFields, ih]

theorem anchorFields_keys (b : BrowserSignals) :
    (anchorFields b).map Prod.fst =
      ["gpu", "webgl", "hw", "mem", "audio", "math", "webgpu", "eme", "pt"] := rfl

theorem anchorFields_audio_num (b : BrowserSignals) (lit : String)
    (h : b.audioFingerprint = some (.num lit)) :
    ("audio", Json.num lit) ∈ anchorFields b := by
  unfold anchorFields
  simp [h, optNumJson]

theorem reparse_keys_of_anchor (b : BrowserSignals) :
    ((reparseFields (JsonFields.ofList (anchorFields b))).map Prod.fst).Nodup := by
  rw [reparseFields_ofList, List.map_map]
  have : (Prod.fst ∘ fun kv : String × Json => (kv.1, reparse kv.2)) = Prod.fst := rfl
  rw [this, anchorFields_keys]
  decide

theorem computeAnchor_audio_lookup (b : BrowserSignals) (lit : String)
    (h : b.audioFingerprint = some (.num lit)) :
    objLookup (computeAnchor b) "audio" = some (.num lit) := by
  simp only [computeAnchor, rawAnchor, reparse, objLookup]
  have hnodK : (((replacerSort (reparseFields (JsonFields.ofList (anchorFields b)))).filter
      (fun kv => !(isUndefined kv.2))).map Prod.fst).Nodup :=
    nodup_keys_of_sublist (List.filter_sublist _)
      (nodup_keys_of_perm (replacerSort_perm _).symm (reparse_keys_of_anchor b))
  have hmem : ("audio", Json.num lit) ∈
      (replacerSort (reparseFields (JsonFields.ofList (anchorFields b)))).filter
        (fun kv => !(isUndefined kv.2)) := by
    refine List.mem_filter.mpr ⟨?_, rfl⟩
    refine (replacerSort_perm _).mem_iff.mpr ?_
    rw [reparseFields_ofList]
    exact List.mem_map.mpr ⟨("audio", .num lit), anchorFields_audio_num b lit h, rfl⟩
  exact lookupFields_ofList_of_mem _ _ _ hnodK hmem

theorem computeAnchor_audio_absent (b : BrowserSignals)
    (h : b.audioFingerprint = none ∨ b.audioFingerprint = some .thunk) :
    objLookup (computeAnchor b) "audio" = none := by
  simp only [computeAnchor, rawAnchor, reparse, objLookup]
  apply lookupFields_ofList_of_not_mem
  intro hmem
  obtain ⟨kv, hkvK, hfst⟩ := List.mem_map.mp hmem
  obtain ⟨hkvR, hdef⟩ := List.mem_filter.mp hkvK
  have hkvL : kv ∈ reparseFields (JsonFields.ofList (anchorFields b)) :=
    (replacerSort_perm _).mem_iff.mp hkvR
  rw [reparseFields_ofList] at hkvL
  obtain ⟨orig, horigL, rfl⟩ := List.mem_map.mp hkvL
  simp only at hfst
  have haudio : (match b.audioFingerprint with
      | some (.num lit) => some lit
      | _ => none) = (none : Option String) := by
    rcases h with h | h <;> rw [h]
  unfold anchorFields at horigL
  simp only [List.mem_cons, List.mem_singleton, List.not_mem_nil, or_false] at horigL
  rcases horigL with rfl | rfl | rfl | rfl | rfl | rfl | rfl | rfl | rfl <;>
    simp_all [optNumJson, isUndefined, reparse]

/-- C10: when the audio probe resolved to a number — the sentinel codes -1,
-2, -3, -4 included — `computeAnchor` keeps exactly that number in the
anchor's `audio` field rather than omitting it; two bags differing only in
which sentinel they carry produce different anchor payloads, while a
pending (thunk) or absent audio signal leaves the field omitted, so a
failed-audio environment is distinguishable from an audio-absent one. -/
theorem C10_audio_sentinels_in_anchor (b : BrowserSignals) :
    (∀ lit : String, b.audioFingerprint = some (.num lit) →
      objLookup (computeAnchor b) "audio" = some (.num lit)) ∧
    ((b.audioFingerprint = none ∨ b.audioFingerprint = some .thunk) →
      objLookup (computeAnchor b) "audio" = none) ∧
    (∀ l1 l2 : String, l1 ≠ l2 →
      computeAnchor { b with audioFingerprint := some (.num l1) } ≠
        computeAnchor { b with audioFingerprint := some (.num l2) }) := by
  refine ⟨fun lit h => computeAnchor_audio_lookup b lit h,
    fun h => computeAnchor_audio_absent b h, ?_⟩
  intro l1 l2 hne heq
  have e1 := computeAnchor_audio_lookup { b with audioFingerprint := some (.num l1) } l1 rfl
  have e2 := computeAnchor_audio_lookup { b with audioFingerprint := some (.num l2) } l2 rfl
  rw [heq, e2] at e1
  injection e1 with e1'
  injection e1' with e1''
  exact hne e1''.symm

/-- C10 witness: concrete sentinel values -1 and -2. -/
theorem C10_audio_sentinels_in_anchor_witness :
    objLookup (computeAnchor { audioFingerprint := some (.num "-1") }) "audio" =
      some (.num "-1") ∧
    objLookup (computeAnchor {}) "audio" = none ∧
    computeAnchor { ({} : BrowserSignals) with audioFingerprint := some (.num "-1") } ≠
      computeAnchor { ({} : BrowserSignals) with audioFingerprint := some (.num "-2") } :=
  ⟨(C10_audio_sentinels_in_anchor { audioFingerprint := some (.num "-1") }).1 "-1" rfl,
    (C10_audio_sentinels_in_anchor {}).2.1 (Or.inl rfl),
    (C10_audio_sentinels_in_anchor {}).2.2 "-1" "-2" (by decide)⟩

/-- C8 (amended): `canonicalize` is invariant under permutation of record
keys at every nesting depth (JS objects have duplicate-free keys), and
absent (`undefined`-valued) fields are dropped from the output; record keys
are emitted in the JS own-property order of the sorted reinsertion —
array-index-like keys first in ascending numeric order, the remaining keys
in ascending UTF-16 lexicographic order — which is plain lexicographic
order only in the absence of array-index-like keys. -/
theorem C8_canonicalize_sorted_keys_amended :
    (∀ a b : Json, PermEq a b → wfJson a = true → canonicalize a = canonicalize b) ∧
    (∀ l : List (String × Option String), ∃ pre post, replacerSort l = pre ++ post ∧
      (∀ kv ∈ pre, isArrayIndex kv.1 = true) ∧ (∀ kv ∈ post, isArrayIndex kv.1 = false) ∧
      pre.Pairwise (fun x y => shortlexLe x.1 y.1 = true) ∧
      post.Pairwise (fun x y => jsStrLe x.1 y.1 = true)) ∧
    (∀ (fs1 fs2 : List (String × Json)) (k : String),
      ((fs1 ++ (k, Json.undefined) :: fs2).map Prod.fst).Nodup →
      stringifyVal (.obj (JsonFields.ofList (fs1 ++ (k, .undefined) :: fs2))) =
        stringifyVal (.obj (JsonFields.ofList (fs1 ++ fs2)))) :=
  ⟨fun _ _ h hwf => canonicalize_permEq h hwf, replacerSort_split, stringify_obj_drops_undef⟩

/-- C8 counterexample to the claim as stated: an object with the
array-index-like keys "10" and "2" is emitted with "2" first (numeric
order), although "10" precedes "2" in the lexicographic order the claim
prescribes. -/
theorem C8_counterexample_numeric_keys :
    canonicalize (Json.obj (.ofList [("10", Json.num "1"), ("2", Json.num "2")])) =
      "\x7b\"2\":2,\"10\":1\x7d" ∧
    jsStrLt "10" "2" = true ∧
    "\x7b\"2\":2,\"10\":1\x7d" ≠ "\x7b\"10\":1,\"2\":2\x7d" := by
  refine ⟨?_, ?_, ?_⟩ <;> decide

/-- C8 witness: a two-key permutation, and dropping one undefined field. -/
theorem C8_canonicalize_sorted_keys_amended_witness :
    canonicalize (Json.obj (.ofList [("b", Json.num "1"), ("a", Json.num "2")])) =
      canonicalize (Json.obj (.ofList [("a", Json.num "2"), ("b", Json.num "1")])) ∧
    stringifyVal (.obj (JsonFields.ofList ([("a", Json.num "1")] ++ ("b", Json.undefined) :: []))) =
      stringifyVal (.obj (JsonFields.ofList ([("a", Json.num "1")] ++ []))) :=
  ⟨C8_canonicalize_sorted_keys_amended.1
      (Json.obj (.ofList [("b", Json.num "1"), ("a", Json.num "2")]))
      (Json.obj (.ofList [("a", Json.num "2"), ("b", Json.num "1")]))
      (PermEq.obj
        (PermEqFields.cons "b" (PermEq.num "1")
          (PermEqFields.cons "a" (PermEq.num "2") PermEqFields.nil))
        (FieldsPerm.swap "b" (Json.num "1") "a" (Json.num "2") JsonFields.nil))
      (by decide),
    C8_canonicalize_sorted_keys_amended.2.2 [("a", Json.num "1")] [] "b" (by decide)⟩

theorem getHash_foldl_shift (l : List ℚ) (a : ℚ) :
    l.foldl (fun h x => h + |x|) a = a + (l.map (fun x => |x|)).sum := by
  induction l generalizing a with
  | nil => simp
  | cons x t ih =>
    simp only [List.foldl_cons, List.map_cons, List.sum_cons]
    rw [ih]
    ring

theorem getHash_eq_sum (l : List ℚ) : getHash l = (l.map (fun x => |x|)).sum := by
  unfold getHash
  rw [getHash_foldl_shift]
  simp

/-- An environment with no `OfflineAudioContext` in a browser classified as
Samsung Internet 122+ (Chromium). -/
def samsungNoAudioEnv : AudioEnv :=
  { offlineAudioContextAvailable := false
    isChromium := true
    isSamsungInternet := true
    isChromium122OrNewer := true }

/-- C3 counterexample: in an environment whose audio-rendering capability is
absent but which the browser classification recognizes as anti-fingerprinting,
`getAudioFingerprint` returns sentinel -4, not -2 — the classification
short-circuits run before the capability check, contradicting the claimed
order. -/
theorem C3_counterexample_classification_first :
    samsungNoAudioEnv.offlineAudioContextAvailable = false ∧
    getAudioFingerprint samsungNoAudioEnv =
      .immediate SpecialFingerprint.KnownForAntifingerprinting ∧
    getAudioFingerprint samsungNoAudioEnv ≠ .immediate SpecialFingerprint.NotSupported := by
  refine ⟨rfl, rfl, ?_⟩
  decide

/-- C3 (amended): when the audio-rendering capability is absent, the probe
terminates synchronously with sentinel -2 (NotSupported) — an immediate
value, not a deferred callable — provided neither browser-classification
short-circuit of `getAudioFingerprint` (Safari 17+, anti-fingerprinting)
applies; `getUnstableAudioFingerprint` itself checks the capability before
its own known-for-suspending classification, so the unstable probe returns
-2 in every capability-absent environment, whatever the classification
bits say. -/
theorem C3_noAudioContext_notSupported_amended :
    (∀ env : AudioEnv, env.offlineAudioContextAvailable = false →
      isSafari17OrNewer env = false → doesBrowserPerformAntifingerprinting env = false →
      getAudioFingerprint env = .immediate SpecialFingerprint.NotSupported) ∧
    (∀ env : AudioEnv, env.offlineAudioContextAvailable = false →
      getUnstableAudioFingerprint env = .immediate SpecialFingerprint.NotSupported) := by
  constructor
  · intro env hcap hs ha
    unfold getAudioFingerprint getUnstableAudioFingerprint
    simp [hs, ha, hcap]
  · intro env hcap
    unfold getUnstableAudioFingerprint
    simp [hcap]

/-- C3 witness: capability absent in a browser whose suspend classification
is positive, and in the Samsung-classified environment — the capability
check wins inside the unstable probe in both. -/
theorem C3_noAudioContext_notSupported_amended_witness :
    getAudioFingerprint { offlineAudioContextAvailable := false, isWebKit := true } =
      .immediate SpecialFingerprint.NotSupported ∧
    getUnstableAudioFingerprint { offlineAudioContextAvailable := false, isWebKit := true } =
      .immediate SpecialFingerprint.NotSupported ∧
    getUnstableAudioFingerprint samsungNoAudioEnv =
      .immediate SpecialFingerprint.NotSupported :=
  ⟨C3_noAudioContext_notSupported_amended.1
      { offlineAudioContextAvailable := false, isWebKit := true } rfl rfl rfl,
    C3_noAudioContext_notSupported_amended.2
      { offlineAudioContextAvailable := false, isWebKit := true } rfl,
    C3_noAudioContext_notSupported_amended.2 samsungNoAudioEnv rfl⟩

/-- C4: when the render promise rejects, the fingerprint promise resolves to
sentinel -3 (Timeout) exactly when the rejection's error name is "timeout"
or "suspended"; any other rejection re-throws the original error to the
caller instead of producing a sentinel. -/
theorem C4_reject_handling (r : RejectReason) :
    (fingerprintOutcome (.failed r) = .value ((SpecialFingerprint.Timeout : Int) : ℚ) ↔
      ((toJsError r).name = some InnerErrorName.Timeout ∨
        (toJsError r).name = some InnerErrorName.Suspended)) ∧
    (¬((toJsError r).name = some InnerErrorName.Timeout ∨
        (toJsError r).name = some InnerErrorName.Suspended) →
      fingerprintOutcome (.failed r) = .raised (toJsError r)) := by
  constructor
  · constructor
    · intro h
      by_contra hn
      simp only [fingerprintOutcome] at h
      rw [if_neg hn] at h
      exact FingerprintOutcome.noConfusion h
    · intro h
      simp only [fingerprintOutcome]
      rw [if_pos h]
  · intro h
    simp only [fingerprintOutcome]
    rw [if_neg h]

/-- C4 witness: an inner timeout maps to -3; an unrelated error name is
re-thrown unchanged. -/
theorem C4_reject_handling_witness :
    fingerprintOutcome (.failed .innerTimeout) =
      .value ((SpecialFingerprint.Timeout : Int) : ℚ) ∧
    fingerprintOutcome (.failed (.startError { name := some "boom" })) =
      .raised { name := some "boom" } :=
  ⟨(C4_reject_handling .innerTimeout).1.mpr (Or.inl rfl),
    (C4_reject_handling (.startError { name := some "boom" })).2 (by decide)⟩

/-- C6: on successful completion, the fingerprint promise resolves to the
sum of the absolute values of the channel-0 samples from index 4500 to the
end of the 5000-sample buffer (a 500-sample window); the value is
non-negative, and it is a pure function of the buffer contents. -/
theorem C6_success_sum_of_magnitudes (buf : List ℚ) (h : buf.length = hashToIndex) :
    fingerprintOutcome (.completed buf) =
      .value (((buf.drop hashFromIndex).map (fun x => |x|)).sum) ∧
    (buf.drop hashFromIndex).length = 500 ∧
    0 ≤ ((buf.drop hashFromIndex).map (fun x => |x|)).sum := by
  refine ⟨?_, ?_, ?_⟩
  · simp only [fingerprintOutcome]
    rw [getHash_eq_sum]
  · rw [List.length_drop, h]
    rfl
  · apply List.sum_nonneg
    intro x hx
    obtain ⟨y, _, rfl⟩ := List.mem_map.mp hx
    exact abs_nonneg y

/-- C6 witness: an all-zero 5000-sample buffer. -/
theorem C6_success_sum_of_magnitudes_witness :
    fingerprintOutcome (.completed (List.replicate 5000 (0 : ℚ))) =
      .value ((((List.replicate 5000 (0 : ℚ)).drop hashFromIndex).map (fun x => |x|)).sum) ∧
    ((List.replicate 5000 (0 : ℚ)).drop hashFromIndex).length = 500 :=
  ⟨(C6_success_sum_of_magnitudes (List.replicate 5000 (0 : ℚ)) (by rw [List.length_replicate]; rfl)).1,
    (C6_success_sum_of_magnitudes (List.replicate 5000 (0 : ℚ)) (by rw [List.length_replicate]; rfl)).2.1⟩

theorem settle_isFinalized (s : RenderJob) (o : SettleOutcome) :
    (settle s o).isFinalized = s.isFinalized := by
  unfold settle; split <;> rfl

theorem settle_renderTryCount (s : RenderJob) (o : SettleOutcome) :
    (settle s o).renderTryCount = s.renderTryCount := by
  unfold settle; split <;> rfl

theorem settle_startedRunningAt (s : RenderJob) (o : SettleOutcome) :
    (settle s o).startedRunningAt = s.startedRunningAt := by
  unfold settle; split <;> rfl

theorem settle_settled_cases (s : RenderJob) (o : SettleOutcome) :
    (settle s o).settled = some o ∨ (settle s o).settled = s.settled := by
  unfold settle
  cases h : s.settled with
  | none => left; rfl
  | some o' => right; exact h

theorem runTrace_cons (s : RenderJob) (e : AudioEvent) (t : List AudioEvent) :
    runTrace s (e :: t) = runTrace (step s e).1 t := rfl

theorem no_finalize_invariant : ∀ (evs : List AudioEvent) (s : RenderJob),
    (∀ e ∈ evs, isFinalizeEv e = false) →
    s.isFinalized = false → s.settled ≠ some (.rejected .innerSuspended) →
    (runTrace s evs).isFinalized = false ∧
      (runTrace s evs).settled ≠ some (.rejected .innerSuspended) := by
  intro evs
  induction evs with
  | nil => intro s _ h1 h2; exact ⟨h1, h2⟩
  | cons e t ih =>
    intro s hnf h1 h2
    have he : isFinalizeEv e = false := hnf e (List.mem_cons_self e t)
    have hstep : (step s e).1.isFinalized = false ∧
        (step s e).1.settled ≠ some (.rejected .innerSuspended) := by
      cases e with
      | tryRender obs now =>
        cases obs with
        | running => exact ⟨h1, h2⟩
        | suspended hidden =>
          simp only [step]
          split_ifs with hh hc hc2
          · exact absurd hc.1 (by simp [h1])
          · exact ⟨h1, h2⟩
          · exact absurd hc2.1 (by simp [h1])
          · exact ⟨h1, h2⟩
        | otherState => exact ⟨h1, h2⟩
        | threw err =>
          simp only [step]
          refine ⟨by rw [settle_isFinalized]; exact h1, ?_⟩
          rcases settle_settled_cases s (.rejected (.startError err)) with h | h <;> rw [h]
          · intro hx; simp at hx
          · exact h2
      | finalizeCall now => exact absurd he (by simp [isFinalizeEv])
      | timeoutFire now =>
        simp only [step]
        refine ⟨by rw [settle_isFinalized]; exact h1, ?_⟩
        rcases settle_settled_cases s (.rejected .innerTimeout) with h | h <;> rw [h]
        · intro hx; simp at hx
        · exact h2
      | complete buf now =>
        simp only [step]
        refine ⟨by rw [settle_isFinalized]; exact h1, ?_⟩
        rcases settle_settled_cases s (.resolvedBuf buf) with h | h <;> rw [h]
        · intro hx; simp at hx
        · exact h2
    rw [runTrace_cons]
    exact ih (step s e).1 (fun x hx => hnf x (List.mem_cons_of_mem e hx)) hstep.1 hstep.2

/-- C2: in every execution of the render loop, (1) a fresh rejection with
the Suspended inner error occurs only when finalize has already been
requested and the retry counter (after the step's own increment) has reached
renderTryMaxCount = 3; (2) the counter changes only on a suspension observed
while the page is foregrounded (`document.hidden` false), and then by
exactly one; (3) every other suspension schedules exactly one retry after
renderRetryDelay = 500 ms; (4) on any trace with no finalize call the job is
never rejected because of suspension, however many suspensions occur. -/
theorem C2_suspension_retry_protocol :
    (∀ (s : RenderJob) (e : AudioEvent),
      (step s e).1.settled = some (.rejected .innerSuspended) →
      s.settled ≠ some (.rejected .innerSuspended) →
      s.isFinalized = true ∧ renderTryMaxCount ≤ (step s e).1.renderTryCount) ∧
    (∀ (s : RenderJob) (e : AudioEvent),
      (step s e).1.renderTryCount ≠ s.renderTryCount →
      (∃ now, e = .tryRender (.suspended false) now) ∧
        (step s e).1.renderTryCount = s.renderTryCount + 1) ∧
    (∀ (s : RenderJob) (hidden : Bool) (now : Int),
      ¬(s.isFinalized = true ∧
        renderTryMaxCount ≤ (if !hidden then s.renderTryCount + 1 else s.renderTryCount)) →
      (step s (.tryRender (.suspended hidden) now)).2 = [.scheduleRetry renderRetryDelay]) ∧
    (∀ evs : List AudioEvent, (∀ e ∈ evs, isFinalizeEv e = false) →
      (runTrace initJob evs).settled ≠ some (.rejected .innerSuspended)) := by
  refine ⟨?_, ?_, ?_, ?_⟩
  · intro s e h1 h2
    cases e with
    | tryRender obs now =>
      cases obs with
      | running => exact absurd h1 h2
      | suspended hidden =>
        simp only [step] at h1 ⊢
        split_ifs at h1 ⊢ with hh hc1 hc2
        · refine ⟨hc1.1, ?_⟩
          rw [settle_renderTryCount]
          exact hc1.2
        · exact absurd h1 h2
        · refine ⟨hc2.1, ?_⟩
          rw [settle_renderTryCount]
          exact hc2.2
        · exact absurd h1 h2
      | otherState => exact absurd h1 h2
      | threw err =>
        simp only [step] at h1
        rcases settle_settled_cases s (.rejected (.startError err)) with h | h <;> rw [h] at h1
        · simp at h1
        · exact absurd h1 h2
    | finalizeCall now =>
      simp only [step] at h1
      split_ifs at h1 <;> exact absurd h1 h2
    | timeoutFire now =>
      simp only [step] at h1
      rcases settle_settled_cases s (.rejected .innerTimeout) with h | h <;> rw [h] at h1
      · simp at h1
      · exact absurd h1 h2
    | complete buf now =>
      simp only [step] at h1
      rcases settle_settled_cases s (.resolvedBuf buf) with h | h <;> rw [h] at h1
      · simp at h1
      · exact absurd h1 h2
  · intro s e h
    cases e with
    | tryRender obs now =>
      cases obs with
      | running => exact absurd rfl h
      | suspended hidden =>
        cases hidden with
        | true =>
          exfalso
          apply h
          simp only [step]
          split_ifs with hx1 hx2 hx3 <;> simp_all [settle_renderTryCount]
        | false =>
          refine ⟨⟨now, rfl⟩, ?_⟩
          simp only [step]
          split_ifs with hx1 hx2 hx3 <;> simp_all [settle_renderTryCount]
      | otherState => exact absurd rfl h
      | threw err =>
        exfalso
        apply h
        simp only [step]
        rw [settle_renderTryCount]
    | finalizeCall now =>
      exfalso
      apply h
      simp only [step]
      split_ifs <;> rfl
    | timeoutFire now =>
      exfalso
      apply h
      simp only [step]
      rw [settle_renderTryCount]
    | complete buf now =>
      exfalso
      apply h
      simp only [step]
      rw [settle_renderTryCount]
  · intro s hidden now h
    simp only [step]
    split_ifs with hh hc1 hc2
    · rw [if_pos hh] at h
      exact absurd hc1 h
    · rfl
    · rw [if_neg hh] at h
      exact absurd hc2 h
    · rfl
  · intro evs hnf
    exact (no_finalize_invariant evs initJob hnf rfl (by decide)).2

/-- C2 witness: a third foregrounded suspension after finalize rejects; a
first suspension before finalize schedules a 500 ms retry; a finalize-free
trace of suspensions never rejects. -/
theorem C2_suspension_retry_protocol_witness :
    (({ isFinalized := true, renderTryCount := 2 } : RenderJob).isFinalized = true ∧
      renderTryMaxCount ≤ (step { isFinalized := true, renderTryCount := 2 }
        (.tryRender (.suspended false) 0)).1.renderTryCount) ∧
    (step initJob (.tryRender (.suspended false) 0)).2 =
      [.scheduleRetry renderRetryDelay] ∧
    (runTrace initJob
        [.tryRender (.suspended false) 0, .tryRender (.suspended false) 600]).settled ≠
      some (.rejected .innerSuspended) :=
  ⟨C2_suspension_retry_protocol.1 { isFinalized := true, renderTryCount := 2 }
      (.tryRender (.suspended false) 0) (by decide) (by decide),
    C2_suspension_retry_protocol.2.2.1 initJob false 0 (by decide),
    C2_suspension_retry_protocol.2.2.2
      [.tryRender (.suspended false) 0, .tryRender (.suspended false) 600] (by decide)⟩

theorem step_startedRunningAt_preserved (s : RenderJob) (e : AudioEvent)
    (h : ∀ now, e ≠ .tryRender .running now) :
    (step s e).1.startedRunningAt = s.startedRunningAt := by
  cases e with
  | tryRender obs now =>
    cases obs with
    | running => exact absurd rfl (h now)
    | suspended hidden =>
      simp only [step]
      split_ifs <;> simp [settle_startedRunningAt]
    | otherState => rfl
    | threw err =>
      simp only [step]
      rw [settle_startedRunningAt]
  | finalizeCall now =>
    simp only [step]
    split_ifs <;> rfl
  | timeoutFire now =>
    simp only [step]
    rw [settle_startedRunningAt]
  | complete buf now =>
    simp only [step]
    rw [settle_startedRunningAt]

theorem runningTimes_cons_other (e : AudioEvent) (t : List AudioEvent)
    (h : ∀ now, e ≠ .tryRender .running now) :
    runningTimes (e :: t) = runningTimes t := by
  cases e with
  | tryRender obs now =>
    cases obs with
    | running => exact absurd rfl (h now)
    | suspended hidden => rfl
    | otherState => rfl
    | threw err => rfl
  | finalizeCall now => rfl
  | timeoutFire now => rfl
  | complete buf now => rfl

theorem valid_single_running : ∀ (evs : List AudioEvent) (s : RenderJob) (p : Nat),
    validSteps s p evs = true → p ≤ 1 →
    (runningTimes evs = [] ∧ (runTrace s evs).startedRunningAt = s.startedRunningAt) ∨
    (p = 1 ∧ ∃ t0, runningTimes evs = [t0] ∧ (runTrace s evs).startedRunningAt = t0) := by
  intro evs
  induction evs with
  | nil =>
    intro s p _ _
    left
    exact ⟨rfl, rfl⟩
  | cons e t ih =>
    intro s p hv hp
    rw [runTrace_cons]
    cases he : isTryRenderEv e with
    | false =>
      -- a non-tryRender event keeps the pending count
      have hnotrun : ∀ now, e ≠ .tryRender .running now := by
        intro now heq
        rw [heq] at he
        exact Bool.noConfusion he
      have hv' : validSteps (step s e).1 p t = true := by
        simp only [validSteps, stepPending, he, if_false, Bool.false_eq_true] at hv
        exact hv
      have hpres := step_startedRunningAt_preserved s e hnotrun
      rw [runningTimes_cons_other e t hnotrun]
      rcases ih (step s e).1 p hv' hp with ⟨hrt, hlast⟩ | ⟨hp1, t0, hrt, hlast⟩
      · left
        exact ⟨hrt, by rw [hlast, hpres]⟩
      · right
        exact ⟨hp1, t0, hrt, hlast⟩
    | true =>
      -- a tryRender event needs a pending invocation
      have hp0 : p ≠ 0 := by
        intro h0
        simp only [validSteps, stepPending, he, if_true, h0, if_pos rfl] at hv
        exact Bool.noConfusion hv
      have hp1 : p = 1 := by omega
      have hv' : validSteps (step s e).1 (p - 1 + retriesScheduled (step s e).2) t = true := by
        simp only [validSteps, stepPending, he, if_true, if_neg hp0] at hv
        exact hv
      obtain ⟨obs, now, rfl⟩ : ∃ obs now, e = .tryRender obs now := by
        cases e with
        | tryRender obs now => exact ⟨obs, now, rfl⟩
        | finalizeCall now => exact Bool.noConfusion he
        | timeoutFire now => exact Bool.noConfusion he
        | complete buf now => exact Bool.noConfusion he
      cases obs with
      | running =>
        have hret : retriesScheduled (step s (.tryRender .running now)).2 = 0 := by
          simp only [step]
          split_ifs <;> rfl
        rw [hret, hp1] at hv'
        have hstart : (step s (.tryRender .running now)).1.startedRunningAt = now := rfl
        rcases ih _ 0 hv' (by omega) with ⟨hrt, hlast⟩ | ⟨hzero, _⟩
        · right
          refine ⟨hp1, now, ?_, ?_⟩
          · simp only [runningTimes, List.filterMap_cons]
            simp only [runningTimes] at hrt
            rw [hrt]
          · rw [hlast, hstart]
        · exact absurd hzero (by omega)
      | suspended hidden =>
        have hret : retriesScheduled (step s (.tryRender (.suspended hidden) now)).2 ≤ 1 := by
          simp only [step]
          split_ifs <;> simp [retriesScheduled]
        have hnotrun : ∀ n, (.tryRender (.suspended hidden) now : AudioEvent) ≠ .tryRender .running n := by
          intro n heq
          simp at heq
        have hpres := step_startedRunningAt_preserved s _ hnotrun
        rw [runningTimes_cons_other _ t hnotrun]
        rcases ih _ _ hv' (by omega) with ⟨hrt, hlast⟩ | ⟨_, t0, hrt, hlast⟩
        · left
          exact ⟨hrt, by rw [hlast, hpres]⟩
        · right
          exact ⟨hp1, t0, hrt, hlast⟩
      | otherState =>
        have hret : retriesScheduled (step s (.tryRender .otherState now)).2 = 0 := rfl
        have hnotrun : ∀ n, (.tryRender .otherState now : AudioEvent) ≠ .tryRender .running n := by
          intro n heq
          simp at heq
        have hpres := step_startedRunningAt_preserved s _ hnotrun
        rw [runningTimes_cons_other _ t hnotrun]
        rcases ih _ _ hv' (by omega) with ⟨hrt, hlast⟩ | ⟨_, t0, hrt, hlast⟩
        · left
          exact ⟨hrt, by rw [hlast, hpres]⟩
        · right
          exact ⟨hp1, t0, hrt, hlast⟩
      | threw err =>
        have hret : retriesScheduled (step s (.tryRender (.threw err) now)).2 = 0 := rfl
        have hnotrun : ∀ n, (.tryRender (.threw err) now : AudioEvent) ≠ .tryRender .running n := by
          intro n heq
          simp at heq
        have hpres := step_startedRunningAt_preserved s _ hnotrun
        rw [runningTimes_cons_other _ t hnotrun]
        rcases ih _ _ hv' (by omega) with ⟨hrt, hlast⟩ | ⟨_, t0, hrt, hlast⟩
        · left
          exact ⟨hrt, by rw [hlast, hpres]⟩
        · right
          exact ⟨hp1, t0, hrt, hlast⟩

/-- C5: whenever the completion timeout is armed — at finalize time while
the job is already running, or when the job reaches Running after finalize —
the armed delay is min(runningMaxAwaitTime = 500 ms, remainder of the
runningSufficientTime = 5000 ms budget measured from `startedRunningAt`);
no other event arms it; if it fires before the job has settled, the job
fails with the inner Timeout condition; and on every schedule-valid trace
the job is observed Running at most once, so `startedRunningAt` is exactly
the instant the job first reached Running. -/
theorem C5_timeout_arming_budget :
    (∀ (s : RenderJob) (now d : Int),
      .armTimeout d ∈ (step s (.finalizeCall now)).2 →
      d = min runningMaxAwaitTime (s.startedRunningAt + runningSufficientTime - now) ∧
        0 < s.startedRunningAt ∧ s.isFinalized = false) ∧
    (∀ (s : RenderJob) (now d : Int),
      .armTimeout d ∈ (step s (.tryRender .running now)).2 →
      d = min runningMaxAwaitTime
          ((step s (.tryRender .running now)).1.startedRunningAt + runningSufficientTime - now) ∧
        s.isFinalized = true) ∧
    (∀ (s : RenderJob) (e : AudioEvent) (d : Int),
      .armTimeout d ∈ (step s e).2 →
      (∃ now, e = .finalizeCall now) ∨ (∃ now, e = .tryRender .running now)) ∧
    (∀ (s : RenderJob) (now : Int), s.settled = none →
      (step s (.timeoutFire now)).1.settled = some (.rejected .innerTimeout)) ∧
    (∀ evs : List AudioEvent, validSteps initJob 1 evs = true →
      (runningTimes evs = [] ∧ (runTrace initJob evs).startedRunningAt = 0) ∨
      (∃ t0, runningTimes evs = [t0] ∧ (runTrace initJob evs).startedRunningAt = t0)) := by
  refine ⟨?_, ?_, ?_, ?_, ?_⟩
  · intro s now d hd
    simp only [step] at hd
    split_ifs at hd with hf hrun
    · simp at hd
    · simp only [startRunningTimeout, List.mem_singleton] at hd
      injection hd with hd'
      refine ⟨hd', hrun, ?_⟩
      simpa using hf
    · simp at hd
  · intro s now d hd
    simp only [step] at hd
    split_ifs at hd with hf
    · simp only [startRunningTimeout, List.mem_singleton] at hd
      injection hd with hd'
      exact ⟨hd', hf⟩
    · simp at hd
  · intro s e d hd
    cases e with
    | tryRender obs now =>
      cases obs with
      | running => exact Or.inr ⟨now, rfl⟩
      | suspended hidden =>
        exfalso
        simp only [step] at hd
        split_ifs at hd <;> simp at hd
      | otherState => simp [step] at hd
      | threw err => simp [step] at hd
    | finalizeCall now => exact Or.inl ⟨now, rfl⟩
    | timeoutFire now => simp [step] at hd
    | complete buf now => simp [step] at hd
  · intro s now h
    simp only [step]
    unfold settle
    rw [h]
  · intro evs hv
    rcases valid_single_running evs initJob 1 hv (le_refl 1) with ⟨hrt, hlast⟩ | ⟨_, t0, hrt, hlast⟩
    · exact Or.inl ⟨hrt, hlast⟩
    · exact Or.inr ⟨t0, hrt, hlast⟩

/-- C5 witness: finalize 4700 ms into the running budget arms a 300 ms
timeout (the remaining budget, below the 500 ms max-await window); a firing
timeout on an unsettled job rejects with Timeout; a valid trace observing
Running once records that instant. -/
theorem C5_timeout_arming_budget_witness :
    ((300 : Int) = min runningMaxAwaitTime
        (({ startedRunningAt := 1000 } : RenderJob).startedRunningAt +
          runningSufficientTime - 5700) ∧
      (0 : Int) < ({ startedRunningAt := 1000 } : RenderJob).startedRunningAt ∧
      ({ startedRunningAt := 1000 } : RenderJob).isFinalized = false) ∧
    (step initJob (.timeoutFire 0)).1.settled = some (.rejected .innerTimeout) ∧
    ((runningTimes [.tryRender .running 5, .finalizeCall 6] = [] ∧
        (runTrace initJob [.tryRender .running 5, .finalizeCall 6]).startedRunningAt = 0) ∨
      (∃ t0, runningTimes [.tryRender .running 5, .finalizeCall 6] = [t0] ∧
        (runTrace initJob [.tryRender .running 5, .finalizeCall 6]).startedRunningAt = t0)) :=
  ⟨C5_timeout_arming_budget.1 { startedRunningAt := 1000 } 5700 300 (by decide),
    C5_timeout_arming_budget.2.2.2.1 initJob 0 rfl,
    C5_timeout_arming_budget.2.2.2.2 [.tryRender .running 5, .finalizeCall 6] (by decide)⟩

/-- C1 witness: the empty signal bag. -/
theorem C1_visitorId_length_is_16_not_22_witness :
    (computeVisitorId {}).visitorId.length = 16 ∧ (16 : Nat) ≠ 22 :=
  C1_visitorId_length_is_16_not_22 {}

/-- C7 witness: concrete volatile fields on the empty bag. -/
theorem C7_anchor_ignores_ua_platform_dpr_viewport_witness :
    computeAnchor (setVolatileFields {} (some "Mozilla/5.0") (some "MacIntel") (some "2")
        (some "1280") (some "720")) = computeAnchor {} ∧
    canonicalize (computeAnchor (setVolatileFields {} (some "Mozilla/5.0") (some "MacIntel")
        (some "2") (some "1280") (some "720"))) = canonicalize (computeAnchor {}) ∧
    (computeVisitorId (setVolatileFields {} (some "Mozilla/5.0") (some "MacIntel") (some "2")
        (some "1280") (some "720"))).visitorId = (computeVisitorId {}).visitorId :=
  C7_anchor_ignores_ua_platform_dpr_viewport {} (some "Mozilla/5.0") (some "MacIntel")
    (some "2") (some "1280") (some "720")

/-- C9 witness: the empty string input. -/
theorem C9_stableHash_fixed_length_lowercase_hex_witness :
    (stableHashStr "").length = 16 ∧
      (∀ c ∈ (stableHashStr "").data, isLowerHexDigit c = true) ∧
      stableHashStr "" = stableHashStr "" :=
  C9_stableHash_fixed_length_lowercase_hex ""
